import Mathlib

/-!
Verification of the batch execution engine of the OpenRouter CSV column
generator (`src/generate-csv-column.js`, together with the earlier variant
kept in `src/unnamed/part_000`).

Embedding conventions:
* JavaScript strings are Lean `String`s; rows (JS objects) are ordered
  association lists from field name to JS value, since JS objects preserve
  insertion order and the engine relies on `Object.keys(rows[0])`.
* Token and cost counters are `Nat`.
* The two external collaborators that feed data into the engine — the HTTP
  transport behind `callOpenRouterAPI` and the built-in `JSON.parse` — are
  supplied as oracles (`api : Nat → Nat → Except ApiError RawResponse`,
  indexed by attempt number and row index, and
  `parse : String → Option Json`).
* Recursive loops of the source (`while` loops, the regex scanner) are
  modelled with an explicit fuel parameter that is always supplied large
  enough; lemmas carry the arithmetic invariant showing fuel is never
  exhausted on the paths the source can take.
-/

namespace CsvGen

/-- JSON values as produced by `JSON.parse` (an external collaborator,
supplied to the engine as an oracle `String → Option Json`). -/
inductive Json where
  | null : Json
  | bool (b : Bool) : Json
  | num (n : Int) : Json
  | str (s : String) : Json
  | arr (elems : List Json) : Json
  | obj (fields : List (String × Json)) : Json
deriving Repr

/-- JavaScript truthiness of a JSON value (`null`, `false`, `0` and `""` are
falsy; arrays and objects are always truthy). -/
def jsTruthy : Json → Bool
  | .null => false
  | .bool b => b
  | .num n => n != 0
  | .str s => s != ""
  | .arr _ => true
  | .obj _ => true

mutual

/-- JavaScript string coercion `String(v)` of a JSON value, used when a row
value is substituted into a prompt template. -/
def jsToString : Json → String
  | .null => "null"
  | .bool b => if b then "true" else "false"
  | .num n => toString n
  | .str s => s
  | .arr elems => String.intercalate "," (jsToStringArr elems)
  | .obj _ => "[object Object]"

/-- Array elements under `Array.prototype.toString`: `null` renders as the
empty string, everything else by `jsToString`. -/
def jsToStringArr : List Json → List String
  | [] => []
  | j :: rest =>
    (match j with
     | .null => ""
     | v => jsToString v) :: jsToStringArr rest

end

/-- A row: ordered field-name/value mapping, as a JS object. -/
abbrev Row := List (String × Json)

/-- All rows of the CSV, indexed by position. -/
abbrev Rows := List Row

/-- JS property read `row[k]` (`none` models `undefined`). -/
def getField (row : Row) (k : String) : Option Json :=
  (row.find? (fun p => p.1 == k)).map (·.2)

/-- JS property write `row[k] = v`: updates the existing key in place
(preserving its position) or appends a new key at the end. -/
def setField (row : Row) (k : String) (v : Json) : Row :=
  if row.any (fun p => p.1 == k) then
    row.map (fun p => if p.1 == k then (k, v) else p)
  else
    row ++ [(k, v)]

/-- `Object.keys` of a row. -/
def rowKeys (row : Row) : List String := row.map Prod.fst

/-- JS whitespace (`\s`, and the class trimmed by `String.prototype.trim`),
restricted to the characters that can occur in this pipeline. -/
def isJsWS (c : Char) : Bool :=
  c == ' ' || c == '\t' || c == '\n' || c == '\r' || c == '\x0b' || c == '\x0c'

/-- `String.prototype.trim`. -/
def jsTrim (s : String) : String :=
  ⟨((s.toList.dropWhile isJsWS).reverse.dropWhile isJsWS).reverse⟩

/-- JS regex word character `\w` = `[A-Za-z0-9_]`. -/
def isWordChar (c : Char) : Bool := c.isAlphanum || c == '_'

/-! ### Template Filler (`fillPromptTemplate`, source lines 33–38)

The source replaces every match of the regex `\{\{(\w+(?:\s+\w+)*)\}\}`.
The regex is deterministic: after the opening `{{` it reads a word run, then
repeatedly a whitespace run followed by a word run (a failed iteration
backtracks completely because word characters, whitespace and `}` are
pairwise disjoint), and finally requires a literal `}}`.  `phWordsF` mirrors
the iterated group, `matchPlaceholder` the whole pattern, and
`fillTemplateAuxF` the global left-to-right scan (a failed match advances one
character, a successful one emits the replacement and resumes after the
match; the replacement text is never re-scanned). -/

/-- Parse the remainder of a placeholder interior after the initial word run:
iterate `(?:\s+\w+)*` and then require the closing `}}`, returning the full
captured name and the unconsumed rest.  `acc` holds the name captured so
far. -/
def phWordsF : Nat → List Char → List Char → Option (List Char × List Char)
  | 0, _, _ => none
  | fuel + 1, l, acc =>
    let ws := l.takeWhile isJsWS
    if ws.isEmpty then
      match l with
      | '}' :: '}' :: rest => some (acc, rest)
      | _ => none
    else
      let l1 := l.dropWhile isJsWS
      let w := l1.takeWhile isWordChar
      if w.isEmpty then
        none
      else
        phWordsF fuel (l1.dropWhile isWordChar) (acc ++ ws ++ w)

/-- Try to match `\{\{(\w+(?:\s+\w+)*)\}\}` at the head of `l`; on success
return the captured name and the rest of the input after the match. -/
def matchPlaceholder (l : List Char) : Option (List Char × List Char) :=
  match l with
  | '{' :: '{' :: rest =>
    let w := rest.takeWhile isWordChar
    if w.isEmpty then none
    else phWordsF rest.length (rest.dropWhile isWordChar) w
  | _ => none

/-- Left-to-right scan of the template performing the global regex
replacement: a present field substitutes its (string-coerced) value, an
absent field leaves the matched text unchanged. -/
def fillTemplateAuxF (row : Row) : Nat → List Char → List Char
  | 0, l => l
  | _ + 1, [] => []
  | fuel + 1, c :: rest =>
    match matchPlaceholder (c :: rest) with
    | some (name, after) =>
      (match getField row ⟨name⟩ with
       | some v => (jsToString v).toList
       | none => '{' :: '{' :: (name ++ ['}', '}'])) ++ fillTemplateAuxF row fuel after
    | none => c :: fillTemplateAuxF row fuel rest

/-- `fillPromptTemplate(prompt, rowData)` of the source: replace every
`{{columnName}}` placeholder whose field is defined on the row, leaving
other placeholders untouched. -/
def fillPromptTemplate (prompt : String) (rowData : Row) : String :=
  ⟨fillTemplateAuxF rowData prompt.toList.length prompt.toList⟩

/-! Spec-side view of a template used to state the Template Filler claim: a
template decomposed into literal chunks and placeholders. -/

/-- A template token: a literal chunk or a `{{name}}` placeholder. -/
inductive TemplateTok where
  | lit (s : List Char)
  | ph (name : List Char)

/-- The raw text of a token. -/
def tokText : TemplateTok → List Char
  | .lit s => s
  | .ph n => '{' :: '{' :: (n ++ ['}', '}'])

/-- The raw template text of a token list. -/
def templateText (ts : List TemplateTok) : List Char := (ts.map tokText).flatten

/-- Modelled from the spec: what §4.1 requires of one token — a literal is
copied, a placeholder whose field is present is replaced by the field's
value, and a placeholder whose field is absent is left unchanged. -/
def renderTok (row : Row) : TemplateTok → List Char
  | .lit s => s
  | .ph n =>
    match getField row ⟨n⟩ with
    | some v => (jsToString v).toList
    | none => '{' :: '{' :: (n ++ ['}', '}'])

/-- Modelled from the spec: rendering of a whole decomposed template. -/
def renderTemplate (row : Row) (ts : List TemplateTok) : List Char :=
  (ts.map (renderTok row)).flatten

/-- Checks that `l` continues a valid placeholder name: a (possibly empty)
sequence of whitespace-run/word-run pairs, consuming the whole of `l`. -/
def validNameTailF : Nat → List Char → Bool
  | _, [] => true
  | 0, _ => false
  | fuel + 1, l =>
    let ws := l.takeWhile isJsWS
    let l1 := l.dropWhile isJsWS
    let w := l1.takeWhile isWordChar
    !ws.isEmpty && !w.isEmpty && validNameTailF fuel (l1.dropWhile isWordChar)

/-- `n` matches the capture group `\w+(?:\s+\w+)*` exactly (a word run,
then whitespace-separated word runs, nothing else). -/
def validName (n : List Char) : Bool :=
  !(n.takeWhile isWordChar).isEmpty &&
    validNameTailF n.length (n.dropWhile isWordChar)

/-- Checks that the token is well formed: a literal chunk contains no `{`
(so it can never start a placeholder match), and a placeholder name matches
the capture group `\w+(?:\s+\w+)*` exactly. -/
def wfTok : TemplateTok → Bool
  | .lit s => s.all (fun c => !(c == '{'))
  | .ph n => validName n

/-- Well-formedness of a whole decomposed template. -/
def wfToks (ts : List TemplateTok) : Bool := ts.all wfTok

/-! ### Model Invoker (`callOpenRouterAPI`, source lines 44–100)

The HTTP transport is an external collaborator: an oracle produces either a
transport error or a raw response body; `callOpenRouterAPI` performs the
post-processing the source applies to the body (trimming the generated text
and defaulting the usage accounting). -/

/-- The `usage` object of a raw API response body
(`prompt_tokens`/`completion_tokens`/`total_tokens`/`cost`, each possibly
absent). -/
structure RawUsage where
  prompt_tokens : Option Nat
  completion_tokens : Option Nat
  total_tokens : Option Nat
  cost : Option Nat
deriving DecidableEq, Repr

/-- The part of a successful transport response the source reads: the message
content and the optional usage accounting. -/
structure RawResponse where
  content : String
  usage : Option RawUsage
deriving DecidableEq, Repr

/-- The value returned by `callOpenRouterAPI`. -/
structure ApiResult where
  result : String
  cost : Nat
  promptTokens : Nat
  completionTokens : Nat
  totalTokens : Nat
deriving DecidableEq, Repr

/-- Post-processing of a successful response: `content.trim()`, usage fields
defaulted with `|| 0`, and `total_tokens || (promptTokens +
completionTokens)` (so an absent or zero total is recomputed). -/
def callOpenRouterAPI (resp : RawResponse) : ApiResult :=
  let promptTokens := match resp.usage with
    | some u => u.prompt_tokens.getD 0
    | none => 0
  let completionTokens := match resp.usage with
    | some u => u.completion_tokens.getD 0
    | none => 0
  let totalTokens := match resp.usage with
    | some u =>
      match u.total_tokens with
      | some t => if t == 0 then promptTokens + completionTokens else t
      | none => promptTokens + completionTokens
    | none => promptTokens + completionTokens
  let cost := match resp.usage with
    | some u => u.cost.getD 0
    | none => 0
  { result := jsTrim resp.content
    cost := cost
    promptTokens := promptTokens
    completionTokens := completionTokens
    totalTokens := totalTokens }

/-! ### Errors thrown by a failed invocation

What the batch controller reads off a rejected call (source lines 226–253):
`error.message`, `error.response?.status` and `error.response?.data`, the
latter being either a string body or an object of which the source accesses
`data.error?.message`, `data.error?.metadata` (only ever passed through
`JSON.stringify`) and `data.message`.  An `Option String` field is `some s`
exactly when the corresponding JS property is present; for `errMetadata`,
`s` is its `JSON.stringify` rendering. -/

/-- The object form of `error.response.data`, restricted to the properties
the source reads. -/
structure ErrObjData where
  errMessage : Option String
  errMetadata : Option String
  dataMessage : Option String
deriving DecidableEq, Repr

/-- `error.response.data`: either a raw string body or an object. -/
inductive ErrData where
  | str (s : String)
  | obj (o : ErrObjData)
deriving DecidableEq, Repr

/-- `error.response` of a rejected axios call. -/
structure ErrResponse where
  status : Nat
  data : Option ErrData
deriving DecidableEq, Repr

/-- A rejected model invocation. -/
structure ApiError where
  message : String
  response : Option ErrResponse
deriving DecidableEq, Repr

/-- `error.response?.status || 'N/A'` rendered into the summary key (a
missing response, or a zero — falsy — status, yields `"N/A"`). -/
def statusCodeStr (e : ApiError) : String :=
  match e.response with
  | some r => if r.status == 0 then "N/A" else toString r.status
  | none => "N/A"

/-- Truthiness test of an optional JS string property. -/
def truthyOptStr : Option String → Bool
  | some s => s != ""
  | none => false

/-- Extraction of the detailed error message (source lines 232–246):
start from `error.message`; if `error.response?.data` is truthy, prefer
`data.error.message`, then a string body, then `data.message`; finally append
the stringified `data.error.metadata` when present. -/
def extractErrorMsg (e : ApiError) : String :=
  match (e.response.bind (·.data)) with
  | none => e.message
  | some (.str s) => if s == "" then e.message else s
  | some (.obj o) =>
    let base :=
      if truthyOptStr o.errMessage then o.errMessage.getD ""
      else if truthyOptStr o.dataMessage then o.dataMessage.getD ""
      else e.message
    match o.errMetadata with
    | some meta => base ++ " (" ++ meta ++ ")"
    | none => base

/-- The de-duplication key `` `${statusCode}: ${errorMsg}` `` of a failure. -/
def errorKey (e : ApiError) : String :=
  statusCodeStr e ++ ": " ++ extractErrorMsg e

/-- Insert one failed row (1-based, as reported) into the error summary:
append to the bucket of its key, or open a new bucket at the end. -/
def summaryInsert (s : List (String × List Nat)) (k : String) (v : Nat) :
    List (String × List Nat) :=
  if s.any (fun p => p.1 == k) then
    s.map (fun p => if p.1 == k then (p.1, p.2 ++ [v]) else p)
  else
    s ++ [(k, [v])]

/-- `errorSummary` of a round's failures (source lines 226–253): buckets of
1-based row numbers keyed by the `(status, message)` signature, in first
occurrence order. -/
def buildErrorSummary (failed : List (Nat × ApiError)) : List (String × List Nat) :=
  failed.foldl (fun s f => summaryInsert s (errorKey f.2) (f.1 + 1)) []

/-! ### Response Distributor (`processRow`, source lines 132–176) -/

/-- A Column Specification variant as passed to `processBatch`: a plain
string (single column) or a grouped-columns object. -/
inductive ColumnInfo where
  | single (name : String)
  | group (columns : List String)
deriving DecidableEq, Repr

/-- Strip an optional markdown code fence (source lines 146–153): after
trimming, if the text starts with ``` the opening-fence regex
`^```(?:json)?\s*\n?` and then the closing-fence regex `\n?```\s*$` are each
replaced once (the closing replacement leaves the text unchanged when no
fence terminates it). -/
def stripFences (s : String) : String :=
  let t := jsTrim s
  if ['`', '`', '`'].isPrefixOf t.toList then
    let l0 := t.toList.drop 3
    let l1 := if ['j', 's', 'o', 'n'].isPrefixOf l0 then l0.drop 4 else l0
    let l2 := l1.dropWhile isJsWS
    let r1 := l2.reverse.dropWhile isJsWS
    if ['`', '`', '`'].isPrefixOf r1 then
      let r2 := r1.drop 3
      let r3 := match r2 with
        | '\n' :: rest => rest
        | _ => r2
      ⟨r3.reverse⟩
    else ⟨l2⟩
  else t

/-- A canonical array index (`"0"`, `"1"`, …, digits with no leading zero):
the only string keys under which JS indexes into arrays and strings. -/
def canonIndex (s : String) : Option Nat :=
  let l := s.toList
  if !l.isEmpty && l.all Char.isDigit && (s == "0" || l.head? != some '0')
  then some (l.foldl (fun a c => a * 10 + (c.toNat - '0'.toNat)) 0)
  else none

/-- JS property read `parsed[key]` on a decoded JSON value.  Objects look up
the key, arrays and strings only canonical numeric indices; numbers and
booleans have no own properties.  Reading a property of `null` throws, but
the throw lands in the same `catch` that sets every target field to the
sentinel, which coincides with every lookup returning `undefined`. -/
def jsGet (v : Json) (key : String) : Option Json :=
  match v with
  | .obj fields => (fields.find? (fun p => p.1 == key)).map (·.2)
  | .arr elems =>
    match canonIndex key with
    | some i => elems.get? i
    | none => none
  | .str s =>
    match canonIndex key with
    | some i => (s.toList.get? i).map (fun c => .str ⟨[c]⟩)
    | none => none
  | _ => none

/-- The sentinel stored for an unresolvable group field. -/
def sentinel : Json := .str "__undetectable__"

/-- One per-row success record (`{success, cost, promptTokens,
completionTokens, rowIndex}`). -/
structure SuccessInfo where
  cost : Nat
  promptTokens : Nat
  completionTokens : Nat
  rowIndex : Nat
deriving DecidableEq, Repr

/-- Build the success record of a processed row. -/
def mkSuccessInfo (a : ApiResult) (rowIndex : Nat) : SuccessInfo :=
  ⟨a.cost, a.promptTokens, a.completionTokens, rowIndex⟩

/-- The in-row effect of a successful call (the store step of `processRow`,
source lines 139–167): the whole trimmed text for a single column, or the
decoded JSON distributed over the group's columns with
`parsed[colName] || '__undetectable__'`, every column falling back to the
sentinel when decoding fails. -/
def distributeResult (parse : String → Option Json) (row : Row)
    (columnInfo : ColumnInfo) (apiResult : ApiResult) : Row :=
  match columnInfo with
  | .single name => setField row name (.str apiResult.result)
  | .group cols =>
    let jsonText := stripFences apiResult.result
    match parse jsonText with
    | some parsed =>
      cols.foldl (fun r colName =>
        setField r colName
          (match jsGet parsed colName with
           | some v => if jsTruthy v then v else sentinel
           | none => sentinel)) row
    | none =>
      cols.foldl (fun r colName => setField r colName sentinel) row

/-- `processRow` (source lines 132–176): fill the template, call the API
(outcome supplied by the oracle as `resp`), then store the result in the
row.  A rejected API call propagates as the row's failure. -/
def processRow (parse : String → Option Json) (row : Row) (rowIndex : Nat)
    (columnInfo : ColumnInfo) (resp : Except ApiError RawResponse) :
    Except ApiError (Row × SuccessInfo) :=
  match resp with
  | .error e => .error e
  | .ok raw =>
    let apiResult := callOpenRouterAPI raw
    .ok (distributeResult parse row columnInfo apiResult,
         mkSuccessInfo apiResult rowIndex)

/-! ### Batch Retry Controller (`processBatch`, source lines 184–288)

The oracle `api attempt rowIndex` yields the transport outcome of the
invocation launched for `rowIndex` during retry round `attempt` (the filled
prompt is a function of the row and the template, so the pair determines the
call).  The trace records, per round, the row indices launched
(`rowsToProcess`) and each global backoff suspension in milliseconds. -/

/-- The per-row invocation oracle: attempt number and row index to transport
outcome. -/
abbrev Api := Nat → Nat → Except ApiError RawResponse

/-- Observable schedule of a batch: the row indices launched in each round,
and the backoff sleeps (ms) taken between rounds. -/
structure BatchTrace where
  invocations : List (List Nat)
  sleeps : List Nat
deriving DecidableEq, Repr

/-- Total number of invocations launched over all rounds. -/
def totalInvocations (t : BatchTrace) : Nat :=
  (t.invocations.map List.length).sum

/-- The fatal aggregate failure of a batch: the still-failing rows (1-based,
as reported), the de-duplicated error summary, and the thrown `Error`
message. -/
structure BatchError where
  failedRows : List Nat
  summary : List (String × List Nat)
  message : String
deriving DecidableEq, Repr

/-- One iteration of the `while` loop of `processBatch` per fuel step:
launch the still-pending rows, partition the settled results, append the
successes, and either finish, throw past the retry ceiling, or back off
2^retryCount seconds and go round again with only the failed rows.  The
fuel only bounds the recursion; `maxRetries + 2` steps are always enough
because `retryCount` grows by one per continued round. -/
def processBatchGo (parse : String → Option Json) (api : Api)
    (columnInfo : ColumnInfo) (maxRetries : Nat) :
    Nat → Rows → List Nat → Nat → List SuccessInfo → List (List Nat) →
    List Nat → Rows × BatchTrace × Except BatchError (List SuccessInfo)
  | _, rows, [], _, allResults, invAcc, sleepAcc =>
    (rows, ⟨invAcc, sleepAcc⟩, .ok allResults)
  | 0, rows, _, _, _, invAcc, sleepAcc =>
    (rows, ⟨invAcc, sleepAcc⟩, .error ⟨[], [], "fuel exhausted"⟩)
  | fuel + 1, rows, rowsToProcess, retryCount, allResults, invAcc, sleepAcc =>
    let results := rowsToProcess.map (fun rowIndex =>
      (rowIndex,
       processRow parse (rows.getD rowIndex []) rowIndex columnInfo
         (api retryCount rowIndex)))
    let rows1 := results.foldl (fun acc pr =>
      match pr.2 with
      | .ok (row, _) => acc.set pr.1 row
      | .error _ => acc) rows
    let newSuccesses := results.filterMap (fun pr => pr.2.toOption.map (·.2))
    let failed := results.filterMap (fun pr =>
      match pr.2 with
      | .error e => some (pr.1, e)
      | .ok _ => none)
    let allResults1 := allResults ++ newSuccesses
    let stillFailing := failed.map (·.1)
    let invAcc1 := invAcc ++ [rowsToProcess]
    if stillFailing.isEmpty then
      (rows1, ⟨invAcc1, sleepAcc⟩, .ok allResults1)
    else
      let retryCount1 := retryCount + 1
      let errorSummary := buildErrorSummary failed
      if maxRetries < retryCount1 then
        (rows1, ⟨invAcc1, sleepAcc⟩,
         .error ⟨stillFailing.map (· + 1), errorSummary,
                 toString stillFailing.length ++ " row(s) failed after " ++
                   toString maxRetries ++ " retries"⟩)
      else
        let backoffMs := 2 ^ retryCount1 * 1000
        processBatchGo parse api columnInfo maxRetries fuel rows1 stillFailing
          retryCount1 allResults1 invAcc1 (sleepAcc ++ [backoffMs])

/-- `processBatch(rows, batchStart, batchEnd, columnInfo, …, maxRetries)`:
process rows `batchStart ≤ j < batchEnd`, retrying only failed rows, with
default ceiling 10. -/
def processBatch (parse : String → Option Json) (api : Api) (rows : Rows)
    (batchStart batchEnd : Nat) (columnInfo : ColumnInfo) (maxRetries : Nat) :
    Rows × BatchTrace × Except BatchError (List SuccessInfo) :=
  processBatchGo parse api columnInfo maxRetries (maxRetries + 2) rows
    (List.range' batchStart (batchEnd - batchStart)) 0 [] [] []

/-! ### Column Driver (`processColumn`, source lines 293–408) and
Run Orchestrator (`main`, source lines 413–562)

File writes are events; the checkpoint sink is an oracle `ckptOk`, indexed
by the batch's starting row, that tells whether a given checkpoint write
succeeds (a failed write is logged as a warning event and processing
continues). -/

/-- Externally visible file-writing and waiting actions of a run. -/
inductive Event where
  | checkpoint (path : String) (headers : List String) (rows : Rows)
  | checkpointFailed (path : String)
  | cooldown (ms : Nat)
  | finalWrite (path : String) (headers : List String) (rows : Rows)

/-- Cost/token statistics accumulated by a column (and by the run). -/
structure ColumnStats where
  cost : Nat
  tokens : Nat
  promptTokens : Nat
  completionTokens : Nat
deriving DecidableEq, Repr

/-- Fold a batch's success records into the column's running totals the way
the aggregation loop does (source lines 356–363). -/
def accumStats (stats : ColumnStats) (results : List SuccessInfo) : ColumnStats :=
  results.foldl (fun st r =>
    { st with
        cost := st.cost + r.cost
        promptTokens := st.promptTokens + r.promptTokens
        completionTokens := st.completionTokens + r.completionTokens }) stats

/-- A single-column configuration (after validation and defaulting). -/
structure SingleColumnConfig where
  columnName : String
  modelName : String
  batchSize : Nat
  cooldown : Nat
  prompt : String
deriving DecidableEq, Repr

/-- A grouped-columns configuration (after validation and defaulting). -/
structure GroupConfig where
  groupName : String
  modelName : String
  batchSize : Nat
  cooldown : Nat
  prompt : String
  columns : List String
deriving DecidableEq, Repr

/-- An entry of `config.columns`. -/
inductive ColumnConfig where
  | single (c : SingleColumnConfig)
  | group (g : GroupConfig)
deriving DecidableEq, Repr

/-- The `ColumnInfo` a configuration dispatches to `processBatch`. -/
def ColumnConfig.info : ColumnConfig → ColumnInfo
  | .single c => .single c.columnName
  | .group g => .group g.columns

/-- Batch size of a configuration. -/
def ColumnConfig.batchSize : ColumnConfig → Nat
  | .single c => c.batchSize
  | .group g => g.batchSize

/-- Cooldown of a configuration. -/
def ColumnConfig.cooldown : ColumnConfig → Nat
  | .single c => c.cooldown
  | .group g => g.cooldown

/-- The batch loop of `processColumn` (source lines 344–387): process the
batch starting at `i`, fold its statistics, write the progress checkpoint
(its failure only logs a warning), cool down unless this was the last batch,
and move to the next batch.  `n` is the row count; fuel `n + 1` suffices for
a positive batch size. -/
def processColumnGo (parse : String → Option Json) (api : Api)
    (columnInfo : ColumnInfo) (batchSize cooldownMs : Nat)
    (progressFilePath : String) (ckptOk : Nat → Bool) (n : Nat) :
    Nat → Nat → Rows → ColumnStats → List Event →
    Rows × List Event × Except BatchError ColumnStats
  | 0, i, rows, stats, evs =>
    if n ≤ i then (rows, evs, .ok stats)
    else (rows, evs, .error ⟨[], [], "fuel exhausted"⟩)
  | fuel + 1, i, rows, stats, evs =>
    if n ≤ i then (rows, evs, .ok stats)
    else
      let res := processBatch parse api rows i (min (i + batchSize) n) columnInfo 10
      match res.2.2 with
      | .error e => (res.1, evs, .error e)
      | .ok results =>
        let rows1 := res.1
        let stats1 := accumStats stats results
        let evs1 := evs ++
          (if progressFilePath != "" then
            (if ckptOk i then
              [Event.checkpoint progressFilePath (rowKeys (rows1.getD 0 [])) rows1]
             else [Event.checkpointFailed progressFilePath])
           else [])
        let evs2 := evs1 ++
          (if min (i + batchSize) n < n ∧ 0 < cooldownMs then
            [Event.cooldown cooldownMs]
           else [])
        processColumnGo parse api columnInfo batchSize cooldownMs
          progressFilePath ckptOk n fuel (i + batchSize) rows1 stats1 evs2

/-- `processColumn(columnConfig, rows, …, progressFilePath)`: run the
column's batches in order over the shared row set, returning the mutated
rows, the write/wait events, and either the column statistics or the fatal
batch error (which propagates uncaught). -/
def processColumn (parse : String → Option Json) (api : Api)
    (cfg : ColumnConfig) (rows : Rows) (progressFilePath : String)
    (ckptOk : Nat → Bool) : Rows × List Event × Except BatchError ColumnStats :=
  processColumnGo parse api cfg.info cfg.batchSize cfg.cooldown
    progressFilePath ckptOk rows.length (rows.length + 1) 0 rows ⟨0, 0, 0, 0⟩ []

/-- Grand totals across columns (source lines 515–525). -/
def addStats (a b : ColumnStats) : ColumnStats :=
  ⟨a.cost + b.cost, a.tokens + b.tokens, a.promptTokens + b.promptTokens,
   a.completionTokens + b.completionTokens⟩

/-- The column loop of `main` (source lines 520–526): execute each column
driver to completion in list order over the shared row set; a fatal batch
failure aborts the remaining columns.  `apis idx` is the invocation oracle
of the column at position `idx`, `ckptOks idx` its checkpoint-sink oracle. -/
def runColumnsGo (parse : String → Option Json) (apis : Nat → Api)
    (progressFilePath : String) (ckptOks : Nat → Nat → Bool) :
    List ColumnConfig → Nat → Rows → ColumnStats → List Event →
    Rows × List Event × Except BatchError ColumnStats
  | [], _, rows, stats, evs => (rows, evs, .ok stats)
  | cfg :: rest, idx, rows, stats, evs =>
    let res := processColumn parse (apis idx) cfg rows progressFilePath (ckptOks idx)
    match res.2.2 with
    | .error e => (res.1, evs ++ res.2.1, .error e)
    | .ok columnStats =>
      runColumnsGo parse apis progressFilePath ckptOks rest (idx + 1) res.1
        (addStats stats ⟨columnStats.cost,
          columnStats.promptTokens + columnStats.completionTokens,
          columnStats.promptTokens, columnStats.completionTokens⟩) (evs ++ res.2.1)

/-- `config.outputFileName.replace(/\.csv$/i, '.progress')` (source line
513): scan left to right for the first position whose entire remaining
suffix is a case-insensitive `.csv`, and replace it with `.progress`;
without a match the path is returned unchanged. -/
def matchCsvEnd : List Char → Bool
  | [a, b, c, d] => a == '.' && b.toLower == 'c' && c.toLower == 's' && d.toLower == 'v'
  | _ => false

/-- The left-to-right scan of the anchored replacement. -/
def replaceCsvSuffixF : Nat → List Char → Option (List Char)
  | 0, _ => none
  | fuel + 1, l =>
    if matchCsvEnd l then some ['.', 'p', 'r', 'o', 'g', 'r', 'e', 's', 's']
    else
      match l with
      | [] => none
      | c :: rest => (replaceCsvSuffixF fuel rest).map (c :: ·)

/-- The progress-file path derived from the configured output path. -/
def progressPathOf (outputFileName : String) : String :=
  match replaceCsvSuffixF (outputFileName.toList.length + 1) outputFileName.toList with
  | some l => ⟨l⟩
  | none => outputFileName

/-- Does the path end in `.csv` up to ASCII case?  (Spec-side
characterisation used to state the checkpoint-path claim.) -/
def endsWithCsvCI (s : String) : Bool :=
  matchCsvEnd (s.toList.drop (s.toList.length - 4))

/-- Steps [4/5] and [5/5] of `main` (source lines 509–535 and the fatal
handler at 551–561): derive the progress path, run the columns in order, and
on success write the final output CSV; a fatal batch error skips the final
write and terminates the run. -/
def mainRun (parse : String → Option Json) (apis : Nat → Api)
    (cfgs : List ColumnConfig) (outputFileName : String)
    (ckptOks : Nat → Nat → Bool) (rows : Rows) :
    Rows × List Event × Except BatchError ColumnStats :=
  let progressFilePath := progressPathOf outputFileName
  let res := runColumnsGo parse apis progressFilePath ckptOks cfgs 0 rows ⟨0, 0, 0, 0⟩ []
  match res.2.2 with
  | .ok stats =>
    (res.1,
     res.2.1 ++ [Event.finalWrite outputFileName (rowKeys (res.1.getD 0 [])) res.1],
     .ok stats)
  | .error e => (res.1, res.2.1, .error e)

/-! ### The earlier whole-batch-retry variant (`src/unnamed/part_000`,
`processBatch` lines 120–181)

This variant takes a plain column name, launches every row of the batch each
attempt, and on the first rejection retries the whole batch (mutations of
rows whose own invocation succeeded still land, as every task runs to
completion).  Its thrown error carries only a message. -/

/-- Per-row work of the old variant (fill, invoke, store the trimmed text,
return the success record). -/
def processRowOld (row : Row) (rowIndex : Nat) (columnName : String)
    (resp : Except ApiError RawResponse) : Except ApiError (Row × SuccessInfo) :=
  match resp with
  | .error e => .error e
  | .ok raw =>
    let apiResult := callOpenRouterAPI raw
    .ok (setField row columnName (.str apiResult.result),
         mkSuccessInfo apiResult rowIndex)

/-- The `while` loop of the old `processBatch`: launch all rows, return all
results when every invocation succeeded, otherwise increment the retry
count, throw past the ceiling, or back off 2^retryCount seconds and retry
the entire batch. -/
def processBatchOldGo (api : Api) (columnName : String) (maxRetries : Nat)
    (batchRows : List Nat) :
    Nat → Rows → Nat → List (List Nat) → List Nat →
    Rows × BatchTrace × Except String (List SuccessInfo)
  | 0, rows, _, invAcc, sleepAcc =>
    (rows, ⟨invAcc, sleepAcc⟩, .error "fuel exhausted")
  | fuel + 1, rows, retryCount, invAcc, sleepAcc =>
    let results := batchRows.map (fun rowIndex =>
      (rowIndex,
       processRowOld (rows.getD rowIndex []) rowIndex columnName
         (api retryCount rowIndex)))
    let rows1 := results.foldl (fun acc pr =>
      match pr.2 with
      | .ok (row, _) => acc.set pr.1 row
      | .error _ => acc) rows
    let firstError := (results.filterMap (fun pr =>
      match pr.2 with
      | .error e => some e
      | .ok _ => none)).head?
    let invAcc1 := invAcc ++ [batchRows]
    match firstError with
    | none =>
      (rows1, ⟨invAcc1, sleepAcc⟩,
       .ok (results.filterMap (fun pr => pr.2.toOption.map (·.2))))
    | some e =>
      let retryCount1 := retryCount + 1
      let errorMsg :=
        match e.response.bind (·.data) with
        | some (.obj o) =>
          if truthyOptStr o.errMessage then o.errMessage.getD "" else e.message
        | _ => e.message
      if maxRetries < retryCount1 then
        (rows1, ⟨invAcc1, sleepAcc⟩,
         .error ("Batch failed after " ++ toString maxRetries ++ " retries: " ++
           errorMsg))
      else
        let backoffMs := 2 ^ retryCount1 * 1000
        processBatchOldGo api columnName maxRetries batchRows fuel rows1
          retryCount1 invAcc1 (sleepAcc ++ [backoffMs])

/-- The old `processBatch(rows, batchStart, batchEnd, columnName, …)` with
its default ceiling 10. -/
def processBatchOld (api : Api) (rows : Rows) (batchStart batchEnd : Nat)
    (columnName : String) (maxRetries : Nat) :
    Rows × BatchTrace × Except String (List SuccessInfo) :=
  processBatchOldGo api columnName maxRetries
    (List.range' batchStart (batchEnd - batchStart)) (maxRetries + 2) rows 0 [] []

/-! ## Lemmas about JS object reads and writes -/

theorem getField_cons (p : String × Json) (rest : Row) (k : String) :
    getField (p :: rest) k = if p.1 == k then some p.2 else getField rest k := by
  by_cases h : (p.1 == k) = true
  · simp [getField, List.find?_cons_of_pos _ h, h]
  · simp [getField, List.find?_cons_of_neg _ h, h]

theorem getField_map_update_ne {r : Row} {k k2 : String} {v : Json}
    (h : ¬(k2 = k)) :
    getField (r.map (fun p => if p.1 == k then (k, v) else p)) k2 =
      getField r k2 := by
  have hkk2 : (k == k2) = false := by
    simp only [beq_eq_false_iff_ne, ne_eq]
    exact fun hh => h hh.symm
  induction r with
  | nil => rfl
  | cons p rest ih =>
    simp only [List.map_cons, getField_cons]
    by_cases hp : (p.1 == k) = true
    · have hpk : p.1 = k := eq_of_beq hp
      have h2 : (p.1 == k2) = false := by rw [hpk]; exact hkk2
      rw [if_pos hp]
      show (if (k == k2) = true then some v
            else getField (rest.map (fun p => if p.1 == k then (k, v) else p)) k2) =
        if (p.1 == k2) = true then some p.2 else getField rest k2
      rw [hkk2, h2, ih]
      simp only [Bool.false_eq_true, if_false]
    · rw [if_neg hp, ih]

theorem getField_append_single_ne {r : Row} {k k2 : String} {v : Json}
    (h : ¬(k2 = k)) :
    getField (r ++ [(k, v)]) k2 = getField r k2 := by
  have hkk2 : (k == k2) = false := by
    simp only [beq_eq_false_iff_ne, ne_eq]
    exact fun hh => h hh.symm
  induction r with
  | nil =>
    show getField [(k, v)] k2 = none
    rw [getField_cons]
    show (if (k == k2) = true then some v else getField [] k2) = none
    rw [hkk2]
    simp only [Bool.false_eq_true, if_false]
    rfl
  | cons p rest ih => simp only [List.cons_append, getField_cons, ih]

theorem getField_setField_ne {r : Row} {k k2 : String} {v : Json}
    (h : ¬(k2 = k)) :
    getField (setField r k v) k2 = getField r k2 := by
  unfold setField
  by_cases ha : (r.any (fun p => p.1 == k)) = true
  · rw [if_pos ha]; exact getField_map_update_ne h
  · rw [if_neg ha]; exact getField_append_single_ne h

theorem getField_map_update_self (r : Row) (k : String) (v : Json) :
    r.any (fun p => p.1 == k) = true →
    getField (r.map (fun p => if p.1 == k then (k, v) else p)) k = some v := by
  induction r with
  | nil => intro ha; simp at ha
  | cons p rest ih =>
    intro ha
    simp only [List.map_cons, getField_cons]
    by_cases hp : (p.1 == k) = true
    · rw [if_pos hp]
      show (if (k == k) = true then some v
            else getField (rest.map (fun p => if p.1 == k then (k, v) else p)) k) =
        some v
      rw [if_pos (beq_self_eq_true k)]
    · rw [if_neg hp, if_neg hp]
      apply ih
      simp only [List.any_cons, Bool.or_eq_true] at ha
      cases ha with
      | inl h1 => exact absurd h1 hp
      | inr h2 => exact h2

theorem getField_append_single_self (r : Row) (k : String) (v : Json) :
    r.any (fun p => p.1 == k) = false →
    getField (r ++ [(k, v)]) k = some v := by
  induction r with
  | nil =>
    intro _
    show getField [(k, v)] k = some v
    rw [getField_cons]
    show (if (k == k) = true then some v else getField [] k) = some v
    rw [if_pos (beq_self_eq_true k)]
  | cons p rest ih =>
    intro ha
    simp only [List.any_cons, Bool.or_eq_false_iff] at ha
    simp only [List.cons_append, getField_cons, ha.1, Bool.false_eq_true,
      if_false]
    exact ih ha.2

theorem getField_setField_self (r : Row) (k : String) (v : Json) :
    getField (setField r k v) k = some v := by
  unfold setField
  by_cases ha : (r.any (fun p => p.1 == k)) = true
  · rw [if_pos ha]; exact getField_map_update_self r k v ha
  · rw [if_neg ha]
    exact getField_append_single_self r k v (Bool.not_eq_true _ ▸ ha)

/-- After folding per-column writes whose value depends only on the column
name, a column not on the list keeps its previous value. -/
theorem getField_foldl_setField_not_mem (cols : List String) (F : String → Json)
    (c : String) :
    ∀ row : Row, c ∉ cols →
      getField (cols.foldl (fun r x => setField r x (F x)) row) c =
        getField row c := by
  induction cols with
  | nil => intro row _; rfl
  | cons x xs ih =>
    intro row h
    simp only [List.mem_cons, not_or] at h
    simp only [List.foldl_cons]
    rw [ih _ h.2, getField_setField_ne h.1]

/-- After folding per-column writes whose value depends only on the column
name, every listed column holds its prescribed value. -/
theorem getField_foldl_setField_mem (cols : List String) (F : String → Json)
    (c : String) :
    ∀ row : Row, c ∈ cols →
      getField (cols.foldl (fun r x => setField r x (F x)) row) c =
        some (F c) := by
  induction cols with
  | nil => intro row h; cases h
  | cons x xs ih =>
    intro row h
    simp only [List.foldl_cons]
    by_cases hx : c ∈ xs
    · exact ih _ hx
    · have hcx : c = x := by
        cases List.mem_cons.mp h with
        | inl h1 => exact h1
        | inr h2 => exact absurd h2 hx
      rw [getField_foldl_setField_not_mem _ _ _ _ hx, hcx,
        getField_setField_self]

/-! ## The Response Distributor claims -/

/-- The value the group branch of `processRow` stores for column `c` given
the decode outcome: the decoded value at the key when present and truthy,
otherwise the sentinel (and the sentinel for every column on decode
failure). -/
def distributedValue (parsed : Option Json) (c : String) : Json :=
  match parsed with
  | none => sentinel
  | some p =>
    match jsGet p c with
    | some v => if jsTruthy v then v else sentinel
    | none => sentinel

/-- **C3** (amended: a present key whose decoded value is falsy also receives
the sentinel, because presence is tested with `||`).  For every group-variant
column list and raw response text, the distributor never propagates an
error: the call returns a success, each declared target field holds the
decoded object's value at its key when that value is truthy, and the
sentinel string `"__undetectable__"` when decoding (of the fence-stripped
text) fails, the key is absent, or the value is falsy; a decode failure in
particular yields the sentinel for every declared field of the call. -/
theorem c3_distributor_fields (parse : String → Option Json)
    (cols : List String) (row : Row) (rowIndex : Nat) (raw : RawResponse) :
    ∃ row1 info,
      processRow parse row rowIndex (.group cols) (.ok raw) = .ok (row1, info) ∧
      (∀ c ∈ cols,
        getField row1 c =
          some (distributedValue
            (parse (stripFences (callOpenRouterAPI raw).result)) c)) ∧
      (parse (stripFences (callOpenRouterAPI raw).result) = none →
        ∀ c ∈ cols, getField row1 c = some sentinel) := by
  cases hp : parse (stripFences (callOpenRouterAPI raw).result) with
  | none =>
    refine ⟨cols.foldl (fun r colName => setField r colName sentinel) row,
      mkSuccessInfo (callOpenRouterAPI raw) rowIndex, ?_, ?_, ?_⟩
    · simp only [processRow, distributeResult, hp]
    · intro c hc
      have h := getField_foldl_setField_mem cols (fun _ => sentinel) c row hc
      simpa [distributedValue] using h
    · intro _ c hc
      exact getField_foldl_setField_mem cols (fun _ => sentinel) c row hc
  | some parsed =>
    refine ⟨cols.foldl (fun r colName =>
        setField r colName
          (match jsGet parsed colName with
           | some v => if jsTruthy v then v else sentinel
           | none => sentinel)) row,
      mkSuccessInfo (callOpenRouterAPI raw) rowIndex, ?_, ?_, ?_⟩
    · simp only [processRow, distributeResult, hp]
    · intro c hc
      have h := getField_foldl_setField_mem cols
        (fun colName =>
          match jsGet parsed colName with
          | some v => if jsTruthy v then v else sentinel
          | none => sentinel) c row hc
      simpa [distributedValue] using h
    · intro hnone
      exact Option.noConfusion hnone

/-- Concrete decode oracle for the counterexample: the text decodes to the
object `{"A": ""}`. -/
def parseCE : String → Option Json := fun s =>
  if s == "\x7b\"A\":\"\"\x7d" then some (.obj [("A", .str "")]) else none

/-- Concrete raw response for the counterexample. -/
def rawCE : RawResponse := ⟨"\x7b\"A\":\"\"\x7d", none⟩

/-- **C3 counterexample**: decoding succeeds and the declared key `"A"` is
present in the decoded object with value `""`, yet the stored field is the
sentinel rather than the decoded value — refuting the claim that each
declared target field is set to the decoded object's value at its key. -/
theorem c3_counterexample :
    parseCE (stripFences (callOpenRouterAPI rawCE).result) =
      some (.obj [("A", .str "")]) ∧
    jsGet (.obj [("A", .str "")]) "A" = some (.str "") ∧
    (∃ row1 info,
      processRow parseCE [("t", .str "x")] 0 (.group ["A"]) (.ok rawCE) =
        .ok (row1, info) ∧
      getField row1 "A" = some sentinel ∧
      ¬(getField row1 "A" = some (Json.str ""))) := by
  refine ⟨rfl, rfl, [("t", .str "x"), ("A", sentinel)],
    mkSuccessInfo (callOpenRouterAPI rawCE) 0, rfl, rfl, ?_⟩
  intro h
  have hD : getField [("t", Json.str "x"), ("A", sentinel)] "A" = some sentinel := rfl
  have h0 : some sentinel = some (Json.str "") := hD.symm.trans h
  have h1 : sentinel = Json.str "" := by injection h0
  have h2 : "__undetectable__" = "" := by injection h1
  exact absurd h2 (by decide)

/-- **C8**: in a group call whose decoded object contains a declared key with
a falsy value (empty string, zero, false or null), the distributor stores
the sentinel for that field instead of the decoded value, because presence
is tested with the truthiness check `parsed[colName] || '__undetectable__'`
rather than key membership. -/
theorem c8_falsy_value_sentinel (parse : String → Option Json)
    (cols : List String) (row : Row) (rowIndex : Nat) (raw : RawResponse)
    (c : String) (parsed v : Json)
    (hparse : parse (stripFences (callOpenRouterAPI raw).result) = some parsed)
    (hmem : c ∈ cols) (hget : jsGet parsed c = some v)
    (hfalsy : jsTruthy v = false) :
    ∃ row1 info,
      processRow parse row rowIndex (.group cols) (.ok raw) = .ok (row1, info) ∧
      getField row1 c = some sentinel := by
  refine ⟨cols.foldl (fun r colName =>
      setField r colName
        (match jsGet parsed colName with
         | some v => if jsTruthy v then v else sentinel
         | none => sentinel)) row,
    mkSuccessInfo (callOpenRouterAPI raw) rowIndex, ?_, ?_⟩
  · simp only [processRow, distributeResult, hparse]
  · have h := getField_foldl_setField_mem cols
      (fun colName =>
        match jsGet parsed colName with
        | some v => if jsTruthy v then v else sentinel
        | none => sentinel) c row hmem
    rw [h]
    show some (match jsGet parsed c with
         | some v => if jsTruthy v then v else sentinel
         | none => sentinel) = some sentinel
    rw [hget]
    simp [hfalsy]

/-- **C8 witness**: concrete instance — `{"A": ""}` decoded, key `"A"`
present with the falsy value `""`, sentinel stored. -/
theorem c8_witness :
    ∃ row1 info,
      processRow parseCE [("t", .str "x")] 0 (.group ["A"]) (.ok rawCE) =
        .ok (row1, info) ∧
      getField row1 "A" = some sentinel :=
  c8_falsy_value_sentinel parseCE ["A"] [("t", .str "x")] 0 rawCE "A"
    (.obj [("A", .str "")]) (.str "") rfl (by simp) rfl rfl

/-- **C3 witness**: the amended distribution theorem applied at a concrete
group call. -/
theorem c3_witness :
    ∃ row1 info,
      processRow parseCE [("t", .str "x")] 0 (.group ["A", "B"]) (.ok rawCE) =
        .ok (row1, info) ∧
      (∀ c ∈ ["A", "B"],
        getField row1 c =
          some (distributedValue
            (parseCE (stripFences (callOpenRouterAPI rawCE).result)) c)) ∧
      (parseCE (stripFences (callOpenRouterAPI rawCE).result) = none →
        ∀ c ∈ ["A", "B"], getField row1 c = some sentinel) :=
  c3_distributor_fields parseCE ["A", "B"] [("t", .str "x")] 0 rawCE

/-! ## The checkpoint-path claim -/

theorem matchCsvEnd_length {l : List Char} (h : matchCsvEnd l = true) :
    l.length = 4 := by
  match l with
  | [_, _, _, _] => rfl
  | [] => simp [matchCsvEnd] at h
  | [_] => simp [matchCsvEnd] at h
  | [_, _] => simp [matchCsvEnd] at h
  | [_, _, _] => simp [matchCsvEnd] at h
  | _ :: _ :: _ :: _ :: _ :: _ => simp [matchCsvEnd] at h

/-- The anchored case-insensitive replacement, characterised: it fires
exactly when the final four characters match `.csv` case-insensitively, and
then replaces exactly them. -/
theorem replaceCsvSuffixF_spec :
    ∀ (fuel : Nat) (l : List Char), l.length < fuel →
      replaceCsvSuffixF fuel l =
        if matchCsvEnd (l.drop (l.length - 4)) then
          some (l.take (l.length - 4) ++ ['.', 'p', 'r', 'o', 'g', 'r', 'e', 's', 's'])
        else none := by
  intro fuel
  induction fuel with
  | zero => intro l h; exact absurd h (Nat.not_lt_zero _)
  | succ fuel ih =>
    intro l h
    match l with
    | [] => simp [replaceCsvSuffixF, matchCsvEnd]
    | c :: rest =>
      by_cases hm : matchCsvEnd (c :: rest) = true
      · have hlen := matchCsvEnd_length hm
        have h0 : (c :: rest).length - 4 = 0 := by omega
        rw [h0]
        simp only [List.drop_zero, List.take_zero, hm, if_true, List.nil_append]
        simp [replaceCsvSuffixF, hm]
      · have hm' : matchCsvEnd (c :: rest) = false := by
          cases hmv : matchCsvEnd (c :: rest) with
          | true => exact absurd hmv hm
          | false => rfl
        have hrec : replaceCsvSuffixF (fuel + 1) (c :: rest) =
            (replaceCsvSuffixF fuel rest).map (c :: ·) := by
          simp [replaceCsvSuffixF, hm']
        rw [hrec, ih rest (by simpa using Nat.lt_of_succ_lt_succ h)]
        by_cases hr4 : 4 ≤ rest.length
        · have hd : (c :: rest).drop ((c :: rest).length - 4) =
              rest.drop (rest.length - 4) := by
            have : (c :: rest).length - 4 = (rest.length - 4) + 1 := by
              simp only [List.length_cons]; omega
            rw [this, List.drop_succ_cons]
          have ht : (c :: rest).take ((c :: rest).length - 4) =
              c :: rest.take (rest.length - 4) := by
            have : (c :: rest).length - 4 = (rest.length - 4) + 1 := by
              simp only [List.length_cons]; omega
            rw [this, List.take_succ_cons]
          rw [hd, ht]
          by_cases hcond : matchCsvEnd (rest.drop (rest.length - 4)) = true
          · simp [hcond]
          · simp [hcond]
        · have hr0 : rest.length - 4 = 0 := by omega
          have hc0 : (c :: rest).length - 4 = 0 := by
            simp only [List.length_cons]; omega
          rw [hr0, hc0, List.drop_zero, List.drop_zero]
          have hrestm : matchCsvEnd rest = false := by
            cases hmv : matchCsvEnd rest with
            | true =>
              have := matchCsvEnd_length hmv
              omega
            | false => rfl
          simp [hrestm, hm']

/-- Every checkpoint event produced by the column batch loop targets the
progress path it was given. -/
theorem processColumnGo_checkpoint_path (parse : String → Option Json)
    (api : Api) (ci : ColumnInfo) (bs cd : Nat) (path : String)
    (ck : Nat → Bool) (n : Nat) :
    ∀ (fuel i : Nat) (rows : Rows) (stats : ColumnStats) (evs : List Event),
      (∀ p hs rs, Event.checkpoint p hs rs ∈ evs → p = path) →
      ∀ p hs rs,
        Event.checkpoint p hs rs ∈
          (processColumnGo parse api ci bs cd path ck n fuel i rows stats evs).2.1 →
        p = path := by
  intro fuel
  induction fuel with
  | zero =>
    intro i rows stats evs hin p hs rs hmem
    unfold processColumnGo at hmem
    by_cases hni : n ≤ i
    · rw [if_pos hni] at hmem; exact hin _ _ _ hmem
    · rw [if_neg hni] at hmem; exact hin _ _ _ hmem
  | succ fuel ih =>
    intro i rows stats evs hin p hs rs hmem
    unfold processColumnGo at hmem
    by_cases hni : n ≤ i
    · rw [if_pos hni] at hmem; exact hin _ _ _ hmem
    · rw [if_neg hni] at hmem
      cases hres : (processBatch parse api rows i (min (i + bs) n) ci 10).2.2 with
      | error e =>
        simp only [hres] at hmem
        exact hin _ _ _ hmem
      | ok results =>
        simp only [hres] at hmem
        refine ih (i + bs) _ _ _ ?_ p hs rs hmem
        intro p1 hs1 rs1 hmem1
        rcases List.mem_append.mp hmem1 with h1 | h2
        · rcases List.mem_append.mp h1 with h3 | h4
          · exact hin _ _ _ h3
          · by_cases hpf : (path != "") = true
            · simp only [hpf, if_true] at h4
              by_cases hck : ck i = true
              · simp only [hck, if_true, List.mem_singleton] at h4
                injection h4 with e1 e2 e3
              · simp only [Bool.not_eq_true] at hck
                simp only [hck, Bool.false_eq_true, if_false,
                  List.mem_singleton] at h4
                cases h4
            · simp only [Bool.not_eq_true] at hpf
              simp only [hpf, Bool.false_eq_true, if_false] at h4
              cases h4
        · by_cases hcd : min (i + bs) n < n ∧ 0 < cd
          · simp only [if_pos hcd, List.mem_singleton] at h2
            cases h2
          · simp only [if_neg hcd] at h2
            cases h2

/-- Checkpoint-path invariant lifted to the column loop of `main`. -/
theorem runColumnsGo_checkpoint_path (parse : String → Option Json)
    (apis : Nat → Api) (path : String) (cks : Nat → Nat → Bool) :
    ∀ (cfgs : List ColumnConfig) (idx : Nat) (rows : Rows)
      (stats : ColumnStats) (evs : List Event),
      (∀ p hs rs, Event.checkpoint p hs rs ∈ evs → p = path) →
      ∀ p hs rs,
        Event.checkpoint p hs rs ∈
          (runColumnsGo parse apis path cks cfgs idx rows stats evs).2.1 →
        p = path := by
  intro cfgs
  induction cfgs with
  | nil => intro idx rows stats evs hin p hs rs hmem; exact hin _ _ _ hmem
  | cons cfg rest ih =>
    intro idx rows stats evs hin p hs rs hmem
    have hcol : ∀ p1 hs1 rs1,
        Event.checkpoint p1 hs1 rs1 ∈
          (processColumn parse (apis idx) cfg rows path (cks idx)).2.1 →
        p1 = path := by
      intro p1 hs1 rs1 hm1
      exact processColumnGo_checkpoint_path parse (apis idx) cfg.info
        cfg.batchSize cfg.cooldown path (cks idx) rows.length
        (rows.length + 1) 0 rows ⟨0, 0, 0, 0⟩ [] (by intro _ _ _ h; cases h)
        p1 hs1 rs1 hm1
    unfold runColumnsGo at hmem
    cases hres : (processColumn parse (apis idx) cfg rows path (cks idx)).2.2 with
    | error e =>
      simp only [hres] at hmem
      rcases List.mem_append.mp hmem with h1 | h2
      · exact hin _ _ _ h1
      · exact hcol _ _ _ h2
    | ok cstats =>
      simp only [hres] at hmem
      refine ih _ _ _ _ ?_ p hs rs hmem
      intro p1 hs1 rs1 hmem1
      rcases List.mem_append.mp hmem1 with h1 | h2
      · exact hin _ _ _ h1
      · exact hcol _ _ _ h2

/-- Every checkpoint event of a run targets the derived progress path. -/
theorem mainRun_checkpoint_path (parse : String → Option Json)
    (apis : Nat → Api) (cfgs : List ColumnConfig) (out : String)
    (cks : Nat → Nat → Bool) (rows : Rows) :
    ∀ p hs rs,
      Event.checkpoint p hs rs ∈ (mainRun parse apis cfgs out cks rows).2.1 →
      p = progressPathOf out := by
  intro p hs rs hmem
  unfold mainRun at hmem
  cases hres : (runColumnsGo parse apis (progressPathOf out) cks cfgs 0 rows
      ⟨0, 0, 0, 0⟩ []).2.2 with
  | ok stats =>
    simp only [hres] at hmem
    rcases List.mem_append.mp hmem with h1 | h2
    · exact runColumnsGo_checkpoint_path parse apis (progressPathOf out) cks
        cfgs 0 rows ⟨0, 0, 0, 0⟩ [] (by intro _ _ _ h; cases h) p hs rs h1
    · simp only [List.mem_singleton] at h2
      cases h2
  | error e =>
    simp only [hres] at hmem
    exact runColumnsGo_checkpoint_path parse apis (progressPathOf out) cks
      cfgs 0 rows ⟨0, 0, 0, 0⟩ [] (by intro _ _ _ h; cases h) p hs rs hmem

/-- **C9**: the checkpoint path is the output path with a trailing
case-insensitive `.csv` replaced by `.progress`; an output name not ending
in `.csv` yields the output path itself, so every post-batch checkpoint
write then targets — and overwrites — the configured output file. -/
theorem c9_checkpoint_path (out : String) :
    (endsWithCsvCI out = true →
      progressPathOf out =
        ⟨out.toList.take (out.toList.length - 4) ++
          ['.', 'p', 'r', 'o', 'g', 'r', 'e', 's', 's']⟩) ∧
    (endsWithCsvCI out = false → progressPathOf out = out) ∧
    (endsWithCsvCI out = false →
      ∀ parse apis cfgs cks rows p hs rs,
        Event.checkpoint p hs rs ∈ (mainRun parse apis cfgs out cks rows).2.1 →
        p = out) := by
  have hspec := replaceCsvSuffixF_spec (out.toList.length + 1) out.toList
    (Nat.lt_succ_self _)
  constructor
  · intro hcsv
    unfold progressPathOf
    rw [hspec]
    unfold endsWithCsvCI at hcsv
    rw [hcsv]
    simp
  constructor
  · intro hcsv
    unfold progressPathOf
    rw [hspec]
    unfold endsWithCsvCI at hcsv
    rw [hcsv]
    simp
  · intro hcsv parse apis cfgs cks rows p hs rs hmem
    have hp := mainRun_checkpoint_path parse apis cfgs out cks rows p hs rs hmem
    have heq : progressPathOf out = out := by
      unfold progressPathOf
      rw [hspec]
      unfold endsWithCsvCI at hcsv
      rw [hcsv]
      simp
    exact heq ▸ hp

/-- **C9 witness**: both branches at concrete paths — `out.CSV` maps to
`out.progress`, `data.txt` is left unchanged. -/
theorem c9_witness :
    progressPathOf "out.CSV" =
      ⟨"out.CSV".toList.take ("out.CSV".toList.length - 4) ++
        ['.', 'p', 'r', 'o', 'g', 'r', 'e', 's', 's']⟩ ∧
    progressPathOf "data.txt" = "data.txt" :=
  ⟨(c9_checkpoint_path "out.CSV").1 rfl,
   (c9_checkpoint_path "data.txt").2.1 rfl⟩


/-! ## The Template Filler claim -/

theorem ws_not_word {c : Char} (h : isJsWS c = true) : isWordChar c = false := by
  unfold isJsWS at h
  simp only [Bool.or_eq_true, beq_iff_eq] at h
  rcases h with ((((h | h) | h) | h) | h) | h <;> (subst h; decide)

theorem word_not_ws {c : Char} (h : isWordChar c = true) : isJsWS c = false := by
  cases hws : isJsWS c with
  | false => rfl
  | true => rw [ws_not_word hws] at h; cases h

theorem takeWhile_append_sat {p : Char → Bool} :
    ∀ (w l : List Char), (∀ c ∈ w, p c = true) →
      (∀ d, l.head? = some d → p d = false) →
      (w ++ l).takeWhile p = w := by
  intro w
  induction w with
  | nil =>
    intro l _ hl
    cases l with
    | nil => rfl
    | cons d ls =>
      have hd : p d = false := hl d rfl
      simp only [List.nil_append]
      exact List.takeWhile_cons_of_neg (by simp [hd])
  | cons c w1 ih =>
    intro l hw hl
    have hc : p c = true := hw c (List.mem_cons_self c w1)
    simp only [List.cons_append]
    rw [List.takeWhile_cons_of_pos hc,
      ih l (fun x hx => hw x (List.mem_cons_of_mem _ hx)) hl]

theorem dropWhile_append_sat {p : Char → Bool} :
    ∀ (w l : List Char), (∀ c ∈ w, p c = true) →
      (∀ d, l.head? = some d → p d = false) →
      (w ++ l).dropWhile p = l := by
  intro w
  induction w with
  | nil =>
    intro l _ hl
    cases l with
    | nil => rfl
    | cons d ls =>
      have hd : p d = false := hl d rfl
      simp only [List.nil_append]
      exact List.dropWhile_cons_of_neg (by simp [hd])
  | cons c w1 ih =>
    intro l hw hl
    have hc : p c = true := hw c (List.mem_cons_self c w1)
    simp only [List.cons_append]
    rw [List.dropWhile_cons_of_pos hc,
      ih l (fun x hx => hw x (List.mem_cons_of_mem _ hx)) hl]

theorem head?_dropWhile_false {p : Char → Bool} (l : List Char) :
    ∀ d, (l.dropWhile p).head? = some d → p d = false := by
  intro d hd
  have h := List.head?_dropWhile_not p l
  rw [hd] at h
  exact h

theorem head?_dropWhile_append_false {p : Char → Bool} (l ext : List Char)
    (hext : ∀ d, ext.head? = some d → p d = false) :
    ∀ d, (l.dropWhile p ++ ext).head? = some d → p d = false := by
  intro d hd
  cases hdw : l.dropWhile p with
  | nil =>
    rw [hdw, List.nil_append] at hd
    exact hext d hd
  | cons x xs =>
    rw [hdw] at hd
    simp only [List.cons_append, List.head?_cons, Option.some.injEq] at hd
    subst hd
    exact head?_dropWhile_false l x (by rw [hdw]; rfl)

/-- Appending text whose first character fails `p` changes neither the
`takeWhile` prefix nor (up to the appended text) the `dropWhile` suffix. -/
theorem takeWhile_append_ext {p : Char → Bool} (l ext : List Char)
    (hext : ∀ d, ext.head? = some d → p d = false) :
    (l ++ ext).takeWhile p = l.takeWhile p := by
  conv_lhs => rw [← List.takeWhile_append_dropWhile p l, List.append_assoc]
  exact takeWhile_append_sat _ _ (fun c hc => List.mem_takeWhile_imp hc)
    (head?_dropWhile_append_false l ext hext)

theorem dropWhile_append_ext {p : Char → Bool} (l ext : List Char)
    (hext : ∀ d, ext.head? = some d → p d = false) :
    (l ++ ext).dropWhile p = l.dropWhile p ++ ext := by
  conv_lhs => rw [← List.takeWhile_append_dropWhile p l, List.append_assoc]
  exact dropWhile_append_sat _ _ (fun c hc => List.mem_takeWhile_imp hc)
    (head?_dropWhile_append_false l ext hext)

theorem brest_head_not_ws (rest : List Char) :
    ∀ d, ('}' :: '}' :: rest).head? = some d → isJsWS d = false := by
  intro d hd
  simp only [List.head?_cons, Option.some.injEq] at hd
  subst hd
  decide

theorem brest_head_not_word (rest : List Char) :
    ∀ d, ('}' :: '}' :: rest).head? = some d → isWordChar d = false := by
  intro d hd
  simp only [List.head?_cons, Option.some.injEq] at hd
  subst hd
  decide

theorem phWordsF_braces (fuel : Nat) (acc rest : List Char) (h : 1 ≤ fuel) :
    phWordsF fuel ('}' :: '}' :: rest) acc = some (acc, rest) := by
  cases fuel with
  | zero => omega
  | succ f =>
    have hws : isJsWS '}' = false := by decide
    simp [phWordsF, hws]

/-- The iterated-group parser consumes exactly a valid name tail and then
the closing braces. -/
theorem phWordsF_valid :
    ∀ (k : Nat) (tail : List Char), validNameTailF k tail = true →
      ∀ (fuel : Nat) (acc rest : List Char), tail.length + 2 ≤ fuel →
        phWordsF fuel (tail ++ '}' :: '}' :: rest) acc = some (acc ++ tail, rest) := by
  intro k
  induction k with
  | zero =>
    intro tail hv fuel acc rest hfuel
    cases tail with
    | nil =>
      rw [List.append_nil, List.nil_append]
      exact phWordsF_braces fuel acc rest (by omega)
    | cons t ts => simp [validNameTailF] at hv
  | succ k ih =>
    intro tail hv fuel acc rest hfuel
    cases tail with
    | nil =>
      rw [List.append_nil, List.nil_append]
      exact phWordsF_braces fuel acc rest (by omega)
    | cons t ts =>
      simp only [validNameTailF, Bool.and_eq_true, Bool.not_eq_true'] at hv
      obtain ⟨⟨hws, hw⟩, hv2⟩ := hv
      have hdec1 : (t :: ts).takeWhile isJsWS ++ (t :: ts).dropWhile isJsWS
          = t :: ts := List.takeWhile_append_dropWhile isJsWS (t :: ts)
      have hdec2 : ((t :: ts).dropWhile isJsWS).takeWhile isWordChar ++
          ((t :: ts).dropWhile isJsWS).dropWhile isWordChar
          = (t :: ts).dropWhile isJsWS :=
        List.takeWhile_append_dropWhile isWordChar ((t :: ts).dropWhile isJsWS)
      have hcons : (t :: ts).length = ts.length + 1 := List.length_cons t ts
      have hlen1 := congrArg List.length hdec1
      have hlen2 := congrArg List.length hdec2
      rw [List.length_append] at hlen1 hlen2
      have hwspos : 0 < ((t :: ts).takeWhile isJsWS).length := by
        cases hq : (t :: ts).takeWhile isJsWS with
        | nil => rw [hq] at hws; cases hws
        | cons a as => simp
      have hwpos :
          0 < (((t :: ts).dropWhile isJsWS).takeWhile isWordChar).length := by
        cases hq : ((t :: ts).dropWhile isJsWS).takeWhile isWordChar with
        | nil => rw [hq] at hw; cases hw
        | cons a as => simp
      cases fuel with
      | zero => omega
      | succ f =>
        have htws : ((t :: ts) ++ '}' :: '}' :: rest).takeWhile isJsWS
            = (t :: ts).takeWhile isJsWS :=
          takeWhile_append_ext _ _ (brest_head_not_ws rest)
        have htdrop : ((t :: ts) ++ '}' :: '}' :: rest).dropWhile isJsWS
            = (t :: ts).dropWhile isJsWS ++ '}' :: '}' :: rest :=
          dropWhile_append_ext _ _ (brest_head_not_ws rest)
        have hwtake : ((t :: ts).dropWhile isJsWS ++ '}' :: '}' :: rest).takeWhile
            isWordChar = ((t :: ts).dropWhile isJsWS).takeWhile isWordChar :=
          takeWhile_append_ext _ _ (brest_head_not_word rest)
        have hwdrop : ((t :: ts).dropWhile isJsWS ++ '}' :: '}' :: rest).dropWhile
            isWordChar =
            ((t :: ts).dropWhile isJsWS).dropWhile isWordChar ++ '}' :: '}' :: rest :=
          dropWhile_append_ext _ _ (brest_head_not_word rest)
        have hrec := ih (((t :: ts).dropWhile isJsWS).dropWhile isWordChar) hv2 f
          (acc ++ (t :: ts).takeWhile isJsWS ++
            ((t :: ts).dropWhile isJsWS).takeWhile isWordChar) rest
          (by omega)
        show phWordsF (f + 1) ((t :: ts) ++ '}' :: '}' :: rest) acc
          = some (acc ++ (t :: ts), rest)
        unfold phWordsF
        simp only [htws, htdrop, hwtake, hwdrop, hws, hw,
          Bool.false_eq_true, if_false]
        rw [hrec]
        rw [← hdec1, ← hdec2]
        simp [List.append_assoc]

/-- The whole placeholder regex matches `{{name}}` exactly when the name is
valid, capturing the name and leaving the rest. -/
theorem matchPlaceholder_ph (n rest : List Char) (hvalid : validName n = true) :
    matchPlaceholder ('{' :: '{' :: (n ++ '}' :: '}' :: rest)) = some (n, rest) := by
  unfold validName at hvalid
  simp only [Bool.and_eq_true, Bool.not_eq_true'] at hvalid
  obtain ⟨hw0, htail⟩ := hvalid
  have hwtake : (n ++ '}' :: '}' :: rest).takeWhile isWordChar
      = n.takeWhile isWordChar :=
    takeWhile_append_ext _ _ (brest_head_not_word rest)
  have hwdrop : (n ++ '}' :: '}' :: rest).dropWhile isWordChar
      = n.dropWhile isWordChar ++ '}' :: '}' :: rest :=
    dropWhile_append_ext _ _ (brest_head_not_word rest)
  have hdec : n.takeWhile isWordChar ++ n.dropWhile isWordChar = n :=
    List.takeWhile_append_dropWhile isWordChar n
  have hlen := congrArg List.length hdec
  rw [List.length_append] at hlen
  have hrec := phWordsF_valid n.length (n.dropWhile isWordChar) htail
    (n ++ '}' :: '}' :: rest).length (n.takeWhile isWordChar) rest
    (by simp only [List.length_append, List.length_cons]; omega)
  unfold matchPlaceholder
  simp only [hwtake, hwdrop, hw0, Bool.false_eq_true, if_false]
  rw [hrec, hdec]

theorem matchPlaceholder_not_brace {c : Char} (l : List Char) (h : ¬(c = '{')) :
    matchPlaceholder (c :: l) = none := by
  unfold matchPlaceholder
  split
  · next heq =>
    injection heq with h1 _
    exact absurd h1 h
  · rfl

/-- One unfolding of the scan on a nonempty input with positive fuel. -/
theorem fillTemplateAuxF_cons_step (row : Row) (fuel : Nat) (c : Char)
    (rest : List Char) :
    fillTemplateAuxF row (fuel + 1) (c :: rest) =
      match matchPlaceholder (c :: rest) with
      | some (name, after) =>
        (match getField row ⟨name⟩ with
         | some v => (jsToString v).toList
         | none => '{' :: '{' :: (name ++ ['}', '}'])) ++
          fillTemplateAuxF row fuel after
      | none => c :: fillTemplateAuxF row fuel rest := rfl

/-- Scanning a brace-free literal chunk copies it unchanged and continues. -/
theorem fill_lit_step (row : Row) :
    ∀ (s t : List Char) (fuel : Nat), (∀ c ∈ s, (c == '{') = false) →
      s.length + t.length ≤ fuel →
      fillTemplateAuxF row fuel (s ++ t)
        = s ++ fillTemplateAuxF row (fuel - s.length) t := by
  intro s
  induction s with
  | nil => intro t fuel _ _; simp
  | cons c cs ih =>
    intro t fuel hs hfuel
    simp only [List.length_cons] at hfuel
    cases fuel with
    | zero => omega
    | succ f =>
      have hc : ¬(c = '{') := by
        have := hs c (List.mem_cons_self c cs)
        simp only [beq_eq_false_iff_ne, ne_eq] at this
        exact this
      show fillTemplateAuxF row (f + 1) (c :: (cs ++ t))
        = (c :: cs) ++ fillTemplateAuxF row (f + 1 - (c :: cs).length) t
      rw [fillTemplateAuxF_cons_step, matchPlaceholder_not_brace _ hc]
      show c :: fillTemplateAuxF row f (cs ++ t)
        = (c :: cs) ++ fillTemplateAuxF row (f + 1 - (c :: cs).length) t
      rw [ih t f (fun x hx => hs x (List.mem_cons_of_mem _ hx)) (by omega)]
      have harith : f + 1 - (c :: cs).length = f - cs.length := by
        simp only [List.length_cons]; omega
      rw [harith]
      simp [List.cons_append]

/-- Scanning a valid placeholder substitutes a present field's value and
leaves the placeholder unchanged for an absent field, then continues after
the match. -/
theorem fill_ph_step (row : Row) (n t : List Char) (fuel : Nat)
    (hvalid : validName n = true) (hfuel : 1 ≤ fuel) :
    fillTemplateAuxF row fuel (tokText (.ph n) ++ t)
      = renderTok row (.ph n) ++ fillTemplateAuxF row (fuel - 1) t := by
  cases fuel with
  | zero => omega
  | succ f =>
    have hshape : tokText (.ph n) ++ t = '{' :: '{' :: (n ++ '}' :: '}' :: t) := by
      simp [tokText, List.append_assoc]
    rw [hshape, fillTemplateAuxF_cons_step, matchPlaceholder_ph n t hvalid]
    rfl

/-- The scan renders a well-formed template token by token. -/
theorem fillTemplateAuxF_renders (row : Row) :
    ∀ (ts : List TemplateTok) (fuel : Nat), wfToks ts = true →
      (templateText ts).length ≤ fuel →
      fillTemplateAuxF row fuel (templateText ts) = renderTemplate row ts := by
  intro ts
  induction ts with
  | nil =>
    intro fuel _ _
    show fillTemplateAuxF row fuel [] = []
    cases fuel <;> rfl
  | cons tk ts ih =>
    intro fuel hwf hfuel
    have hwf2 : wfTok tk = true ∧ wfToks ts = true := by
      simpa [wfToks] using hwf
    have htt : templateText (tk :: ts) = tokText tk ++ templateText ts := by
      simp [templateText]
    rw [htt] at hfuel
    rw [htt]
    simp only [List.length_append] at hfuel
    cases tk with
    | lit s =>
      have hnb : ∀ c ∈ s, (c == '{') = false := by
        intro c hcmem
        have := hwf2.1
        simp only [wfTok, List.all_eq_true] at this
        have h2 := this c hcmem
        simp only [Bool.not_eq_true'] at h2
        exact h2
      have hts : tokText (.lit s) = s := rfl
      rw [hts] at hfuel ⊢
      rw [fill_lit_step row s (templateText ts) fuel hnb hfuel]
      rw [ih (fuel - s.length) hwf2.2 (by omega)]
      simp [renderTemplate, renderTok]
    | ph n =>
      have hv : validName n = true := hwf2.1
      have hlt : (tokText (.ph n)).length = n.length + 4 := by
        simp only [tokText, List.length_cons, List.length_append,
          List.length_nil]
      rw [fill_ph_step row n (templateText ts) fuel hv (by omega)]
      rw [ih (fuel - 1) hwf2.2 (by omega)]
      simp [renderTemplate]

/-- **C5**: for every prompt template — presented as its decomposition into
literal chunks and `{{name}}` placeholders — and every row,
`fillPromptTemplate` replaces every placeholder whose named field is present
in the row with that field's current (string-coerced) value, and leaves
every placeholder whose named field is absent from the row unchanged in the
output; being a plain function of its two arguments, it is pure with no side
effects. -/
theorem c5_template_filler (ts : List TemplateTok) (row : Row)
    (hwf : wfToks ts = true) :
    fillPromptTemplate ⟨templateText ts⟩ row = ⟨renderTemplate row ts⟩ := by
  show (⟨fillTemplateAuxF row (templateText ts).length (templateText ts)⟩ : String)
    = ⟨renderTemplate row ts⟩
  exact congrArg String.mk
    (fillTemplateAuxF_renders row ts (templateText ts).length hwf (Nat.le_refl _))

/-- Concrete row for the Template Filler witness. -/
def wRow : Row := [("name", .str "World")]

/-- Concrete decomposed template for the Template Filler witness. -/
def wToks : List TemplateTok :=
  [.lit "Hello ".toList, .ph "name".toList, .lit " and ".toList,
   .ph "missing name".toList, .lit "!".toList]

/-- **C5 witness**: the theorem applied to a concrete template and row — the
present field is substituted, the absent (multi-word) one is left as its
placeholder text. -/
theorem c5_witness :
    fillPromptTemplate ⟨templateText wToks⟩ wRow = ⟨renderTemplate wRow wToks⟩ ∧
    fillPromptTemplate "Hello {{name}} and {{missing name}}!" wRow
      = "Hello World and {{missing name}}!" :=
  ⟨c5_template_filler wToks wRow (by decide), by decide⟩

/-! ## Batch Retry Controller: round-level lemmas

One round of the retry loop is characterised for an oracle that, at retry
count `c`, fails exactly the rows selected by `f` (with error `e i`) and
answers `r i` for the others.  The updated row array is existentially
quantified: its contents never influence which rows fail, so the later
rounds can be analysed for an arbitrary row state. -/

theorem processRow_error (parse : String → Option Json) (row : Row) (i : Nat)
    (ci : ColumnInfo) (err : ApiError) :
    processRow parse row i ci (.error err) = .error err := rfl

theorem processRow_ok (parse : String → Option Json) (row : Row) (i : Nat)
    (ci : ColumnInfo) (raw : RawResponse) :
    processRow parse row i ci (.ok raw) =
      .ok (distributeResult parse row ci (callOpenRouterAPI raw),
           mkSuccessInfo (callOpenRouterAPI raw) i) := rfl

theorem except_toOption_ok (x : Row × SuccessInfo) :
    (Except.ok x : Except ApiError (Row × SuccessInfo)).toOption = some x := rfl

theorem except_toOption_error (err : ApiError) :
    (Except.error err : Except ApiError (Row × SuccessInfo)).toOption = none := rfl

theorem round_successes (parse : String → Option Json) (api : Api)
    (ci : ColumnInfo) (rows : Rows) (c : Nat) (f : Nat → Bool)
    (e : Nat → ApiError) (r : Nat → RawResponse) :
    ∀ L : List Nat,
      (∀ i ∈ L, api c i = if f i then .error (e i) else .ok (r i)) →
      (L.map (fun rowIndex =>
          (rowIndex, processRow parse (rows.getD rowIndex []) rowIndex ci
            (api c rowIndex)))).filterMap
        (fun pr => pr.2.toOption.map (·.2)) =
      (L.filter (fun i => !f i)).map
        (fun i => mkSuccessInfo (callOpenRouterAPI (r i)) i) := by
  intro L
  induction L with
  | nil => intro _; rfl
  | cons a as ih =>
    intro h
    have ha := h a (List.mem_cons_self a as)
    have has : ∀ i ∈ as, api c i = if f i then .error (e i) else .ok (r i) :=
      fun i hi => h i (List.mem_cons_of_mem _ hi)
    cases hfa : f a with
    | true =>
      have ha' : api c a = .error (e a) := by simp [hfa] at ha; exact ha
      simp only [List.map_cons, List.filterMap_cons, List.filter_cons, ha',
        processRow_error, except_toOption_error, Option.map_none', hfa,
        Bool.not_true, Bool.false_eq_true, if_false]
      exact ih has
    | false =>
      have ha' : api c a = .ok (r a) := by simp [hfa] at ha; exact ha
      simp only [List.map_cons, List.filterMap_cons, List.filter_cons, ha',
        processRow_ok, except_toOption_ok, Option.map_some', hfa,
        Bool.not_false, if_true, List.map_cons]
      rw [ih has]

theorem round_failures (parse : String → Option Json) (api : Api)
    (ci : ColumnInfo) (rows : Rows) (c : Nat) (f : Nat → Bool)
    (e : Nat → ApiError) (r : Nat → RawResponse) :
    ∀ L : List Nat,
      (∀ i ∈ L, api c i = if f i then .error (e i) else .ok (r i)) →
      (L.map (fun rowIndex =>
          (rowIndex, processRow parse (rows.getD rowIndex []) rowIndex ci
            (api c rowIndex)))).filterMap
        (fun pr => match pr.2 with
          | .error err => some (pr.1, err)
          | .ok _ => none) =
      (L.filter f).map (fun i => (i, e i)) := by
  intro L
  induction L with
  | nil => intro _; rfl
  | cons a as ih =>
    intro h
    have ha := h a (List.mem_cons_self a as)
    have has : ∀ i ∈ as, api c i = if f i then .error (e i) else .ok (r i) :=
      fun i hi => h i (List.mem_cons_of_mem _ hi)
    cases hfa : f a with
    | true =>
      have ha' : api c a = .error (e a) := by simp [hfa] at ha; exact ha
      simp only [List.map_cons, List.filterMap_cons, List.filter_cons, ha',
        processRow_error, hfa, if_true, List.map_cons]
      rw [ih has]
    | false =>
      have ha' : api c a = .ok (r a) := by simp [hfa] at ha; exact ha
      simp only [List.map_cons, List.filterMap_cons, List.filter_cons, ha',
        processRow_ok, hfa, Bool.false_eq_true, if_false]
      exact ih has

/-- One unfolding of the retry loop on a nonempty working set with positive
fuel. -/
theorem processBatchGo_cons_eq (parse : String → Option Json) (api : Api)
    (ci : ColumnInfo) (mR fuel : Nat) (rows : Rows) (a : Nat) (as : List Nat)
    (c : Nat) (res : List SuccessInfo) (inv : List (List Nat))
    (slp : List Nat) :
    processBatchGo parse api ci mR (fuel + 1) rows (a :: as) c res inv slp =
      (let results := (a :: as).map (fun rowIndex =>
        (rowIndex, processRow parse (rows.getD rowIndex []) rowIndex ci
          (api c rowIndex)))
       let rows1 := results.foldl (fun acc pr =>
        match pr.2 with
        | .ok (row, _) => acc.set pr.1 row
        | .error _ => acc) rows
       let newSuccesses := results.filterMap (fun pr => pr.2.toOption.map (·.2))
       let failed := results.filterMap (fun pr =>
        match pr.2 with
        | .error err => some (pr.1, err)
        | .ok _ => none)
       let stillFailing := failed.map (·.1)
       if stillFailing.isEmpty then
         (rows1, ⟨inv ++ [a :: as], slp⟩, .ok (res ++ newSuccesses))
       else if mR < c + 1 then
         (rows1, ⟨inv ++ [a :: as], slp⟩,
          .error ⟨stillFailing.map (· + 1), buildErrorSummary failed,
                  toString stillFailing.length ++ " row(s) failed after " ++
                    toString mR ++ " retries"⟩)
       else
         processBatchGo parse api ci mR fuel rows1 stillFailing (c + 1)
           (res ++ newSuccesses) (inv ++ [a :: as])
           (slp ++ [2 ^ (c + 1) * 1000])) := rfl

/-- One full round of the retry loop under a conditional oracle: the launched
rows are recorded, the successes are appended in order, and the loop either
finishes (no failure), throws (ceiling exceeded) or backs off and retries
exactly the failed rows. -/
theorem processBatchGo_round (parse : String → Option Json) (api : Api)
    (ci : ColumnInfo) (mR fuel : Nat) (rows : Rows) (L : List Nat) (c : Nat)
    (res : List SuccessInfo) (inv : List (List Nat)) (slp : List Nat)
    (hL : L ≠ []) (f : Nat → Bool) (e : Nat → ApiError) (r : Nat → RawResponse)
    (hapi : ∀ i ∈ L, api c i = if f i then .error (e i) else .ok (r i)) :
    ∃ rows1 : Rows,
      processBatchGo parse api ci mR (fuel + 1) rows L c res inv slp =
        if (L.filter f).isEmpty then
          (rows1, ⟨inv ++ [L], slp⟩,
           .ok (res ++ (L.filter (fun i => !f i)).map
             (fun i => mkSuccessInfo (callOpenRouterAPI (r i)) i)))
        else if mR < c + 1 then
          (rows1, ⟨inv ++ [L], slp⟩,
           .error ⟨(L.filter f).map (· + 1),
                   buildErrorSummary ((L.filter f).map (fun i => (i, e i))),
                   toString (L.filter f).length ++ " row(s) failed after " ++
                     toString mR ++ " retries"⟩)
        else
          processBatchGo parse api ci mR fuel rows1 (L.filter f) (c + 1)
            (res ++ (L.filter (fun i => !f i)).map
              (fun i => mkSuccessInfo (callOpenRouterAPI (r i)) i))
            (inv ++ [L]) (slp ++ [2 ^ (c + 1) * 1000]) := by
  cases L with
  | nil => exact absurd rfl hL
  | cons a as =>
    refine ⟨((a :: as).map (fun rowIndex =>
        (rowIndex, processRow parse (rows.getD rowIndex []) rowIndex ci
          (api c rowIndex)))).foldl (fun acc pr =>
        match pr.2 with
        | .ok (row, _) => acc.set pr.1 row
        | .error _ => acc) rows, ?_⟩
    have hfailfst :
        ((((a :: as).filter f).map (fun i => (i, e i))).map (·.1))
          = (a :: as).filter f := by
      generalize (a :: as).filter f = l
      induction l with
      | nil => rfl
      | cons x xs ih =>
        simp only [List.map_cons]
        rw [ih]
    rw [processBatchGo_cons_eq]
    simp only [round_successes parse api ci rows c f e r (a :: as) hapi,
      round_failures parse api ci rows c f e r (a :: as) hapi, hfailfst,
      List.length_map]

theorem length_filter_not_add (l : List Nat) (f : Nat → Bool) :
    (l.filter (fun i => !f i)).length + (l.filter f).length = l.length := by
  induction l with
  | nil => rfl
  | cons a as ih =>
    cases hfa : f a <;> simp [List.filter_cons, hfa] <;> omega

theorem map_rowIndex_mkSuccess (l : List Nat) (g : Nat → ApiResult) :
    ((l.map (fun i => mkSuccessInfo (g i) i)).map (·.rowIndex)) = l := by
  induction l with
  | nil => rfl
  | cons a as ih => simp [mkSuccessInfo] at *; exact ih

/-- **C1**: for a batch whose round 0 fails exactly the rows selected by `f`
(`K` of them, with at least one failing and at least one succeeding) and
whose retry round succeeds everywhere, the controller launches round 1 for
exactly the still-failing row indices — none of the already-succeeded rows —
and returns one success per row: `N` successful outcomes after `N + K`
invocations in total (not `2N`), the retried rows' outcomes arriving after
the first-round ones. -/
theorem c1_retry_only_failed (parse : String → Option Json) (api : Api)
    (ci : ColumnInfo) (rows : Rows) (s n K : Nat) (f : Nat → Bool)
    (e : Nat → ApiError) (r0 r1 : Nat → RawResponse)
    (hapi0 : ∀ i ∈ List.range' s n,
      api 0 i = if f i then .error (e i) else .ok (r0 i))
    (hapi1 : ∀ i ∈ List.range' s n, api 1 i = .ok (r1 i))
    (hK : ((List.range' s n).filter f).length = K)
    (hKpos : 0 < K) (hKlt : K < n) :
    (processBatch parse api rows s (s + n) ci 10).2.1.invocations =
      [List.range' s n, (List.range' s n).filter f] ∧
    (processBatch parse api rows s (s + n) ci 10).2.1.sleeps = [2000] ∧
    (∃ results, (processBatch parse api rows s (s + n) ci 10).2.2 =
        .ok results ∧
      results.length = n ∧
      results.map (·.rowIndex) =
        (List.range' s n).filter (fun i => !f i) ++
          (List.range' s n).filter f) ∧
    totalInvocations (processBatch parse api rows s (s + n) ci 10).2.1 =
      n + K := by
  have hlen : (List.range' s n).length = n := List.length_range' s 1 n
  have hne : List.range' s n ≠ [] := by
    intro h
    rw [h] at hlen
    simp at hlen
    omega
  have hb : processBatch parse api rows s (s + n) ci 10 =
      processBatchGo parse api ci 10 (11 + 1) rows (List.range' s n) 0 [] [] [] := by
    unfold processBatch
    rw [show s + n - s = n by omega]
  obtain ⟨rows1, hstep⟩ := processBatchGo_round parse api ci 10 11 rows
    (List.range' s n) 0 [] [] [] hne f e r0 hapi0
  have hfe : ((List.range' s n).filter f).isEmpty = false := by
    rw [List.isEmpty_eq_false]
    intro hnil
    rw [hnil] at hK
    simp at hK
    omega
  have hne2 : (List.range' s n).filter f ≠ [] := List.isEmpty_eq_false.mp hfe
  rw [hfe] at hstep
  rw [if_neg (show ¬((false : Bool) = true) by simp)] at hstep
  rw [if_neg (show ¬(10 < 0 + 1) by omega)] at hstep
  have hapi1' : ∀ i ∈ (List.range' s n).filter f,
      api 1 i = if (fun _ => false) i then .error (e i) else .ok (r1 i) := by
    intro i hi
    simp [hapi1 i (List.mem_of_mem_filter hi)]
  obtain ⟨rows2, hstep2⟩ := processBatchGo_round parse api ci 10 10 rows1
    ((List.range' s n).filter f) 1
    ([] ++ (((List.range' s n).filter (fun i => !f i)).map
      (fun i => mkSuccessInfo (callOpenRouterAPI (r0 i)) i)))
    ([] ++ [List.range' s n]) ([] ++ [2 ^ (0 + 1) * 1000]) hne2
    (fun _ => false) e r1 hapi1'
  simp only [List.filter_false, List.isEmpty_nil, if_true] at hstep2
  have hsimpl : ((List.range' s n).filter f).filter
      (fun i => !(fun _ => false) i) = (List.range' s n).filter f := by
    simp
  rw [hsimpl] at hstep2
  have hfinal : processBatch parse api rows s (s + n) ci 10 =
      (rows2,
       ⟨(([] ++ [List.range' s n]) ++ [(List.range' s n).filter f]),
        [] ++ [2 ^ (0 + 1) * 1000]⟩,
       .ok (([] ++ (((List.range' s n).filter (fun i => !f i)).map
          (fun i => mkSuccessInfo (callOpenRouterAPI (r0 i)) i))) ++
         (((List.range' s n).filter f).map
          (fun i => mkSuccessInfo (callOpenRouterAPI (r1 i)) i)))) := by
    rw [hb, show (11 : Nat) + 1 = 11 + 1 from rfl, hstep,
      show (11 : Nat) = 10 + 1 from rfl, hstep2]
  rw [hfinal]
  have hflen := length_filter_not_add (List.range' s n) f
  refine ⟨by simp, by norm_num, ⟨_, rfl, ?_, ?_⟩, ?_⟩
  · simp only [List.nil_append, List.length_append, List.length_map]
    omega
  · simp only [List.nil_append, List.map_append,
      map_rowIndex_mkSuccess]
  · simp only [totalInvocations, List.nil_append, List.singleton_append,
      List.map_cons, List.map_nil, List.sum_cons, List.sum_nil]
    omega

/-- Decidable equality of transport outcomes, for concrete witnesses. -/
instance : DecidableEq (Except ApiError RawResponse) := fun x y =>
  match x, y with
  | .ok a, .ok b =>
    if h : a = b then isTrue (by rw [h])
    else isFalse (by intro hh; injection hh; exact h (by assumption))
  | .error a, .error b =>
    if h : a = b then isTrue (by rw [h])
    else isFalse (by intro hh; injection hh; exact h (by assumption))
  | .ok _, .error _ => isFalse (by intro hh; exact Except.noConfusion hh)
  | .error _, .ok _ => isFalse (by intro hh; exact Except.noConfusion hh)

/-- Concrete transport error used by the batch witnesses. -/
def eC1 : ApiError := ⟨"boom", some ⟨500, some (.str "overloaded")⟩⟩

/-- Concrete successful response body used by the batch witnesses. -/
def rawC1 : RawResponse := ⟨"ok", some ⟨some 5, some 7, none, some 3⟩⟩

/-- Concrete oracle: row 1 fails on the first attempt only. -/
def apiC1 : Api := fun attempt i =>
  if attempt == 0 && i == 1 then .error eC1 else .ok rawC1

/-- Concrete three-row table used by the batch witnesses. -/
def rowsC1 : Rows := [[("t", .str "a")], [("t", .str "b")], [("t", .str "c")]]

/-- **C1 witness**: three rows, row 1 failing once — two rounds
`[[0,1,2],[1]]`, three successes, four invocations in total. -/
theorem c1_witness :
    (processBatch (fun _ => none) apiC1 rowsC1 0 (0 + 3) (.single "Out")
        10).2.1.invocations =
      [List.range' 0 3, (List.range' 0 3).filter (fun i => i == 1)] ∧
    (processBatch (fun _ => none) apiC1 rowsC1 0 (0 + 3) (.single "Out")
        10).2.1.sleeps = [2000] ∧
    (∃ results,
      (processBatch (fun _ => none) apiC1 rowsC1 0 (0 + 3) (.single "Out")
          10).2.2 = .ok results ∧
      results.length = 3 ∧
      results.map (·.rowIndex) =
        (List.range' 0 3).filter (fun i => !(i == 1)) ++
          (List.range' 0 3).filter (fun i => i == 1)) ∧
    totalInvocations
      (processBatch (fun _ => none) apiC1 rowsC1 0 (0 + 3) (.single "Out")
        10).2.1 = 3 + 1 :=
  c1_retry_only_failed (fun _ => none) apiC1 (.single "Out") rowsC1 0 3 1
    (fun i => i == 1) (fun _ => eC1) (fun _ => rawC1) (fun _ => rawC1)
    (by decide) (by decide) (by decide) (by decide) (by decide)

/-! ## The backoff trace -/

/-- The per-round failure test an arbitrary oracle induces. -/
def failsAt (api : Api) (c i : Nat) : Bool :=
  match api c i with
  | .error _ => true
  | .ok _ => false

/-- The error an arbitrary oracle yields (defaulted on success). -/
def errOf (api : Api) (c i : Nat) : ApiError :=
  match api c i with
  | .error x => x
  | .ok _ => ⟨"", none⟩

/-- The response an arbitrary oracle yields (defaulted on failure). -/
def okOf (api : Api) (c i : Nat) : RawResponse :=
  match api c i with
  | .ok x => x
  | .error _ => ⟨"", none⟩

theorem api_eq_cond (api : Api) (c i : Nat) :
    api c i = if failsAt api c i then .error (errOf api c i)
      else .ok (okOf api c i) := by
  unfold failsAt errOf okOf
  cases api c i <;> rfl

/-- The retry loop exits immediately on an empty working set. -/
theorem processBatchGo_nil_eq (parse : String → Option Json) (api : Api)
    (ci : ColumnInfo) (mR fuel : Nat) (rows : Rows) (c : Nat)
    (res : List SuccessInfo) (inv : List (List Nat)) (slp : List Nat) :
    processBatchGo parse api ci mR fuel rows [] c res inv slp =
      (rows, ⟨inv, slp⟩, .ok res) := by
  cases fuel <;> rfl

/-- Shape of the trace of the retry loop for an arbitrary oracle: each
continued round appends exactly one global backoff sleep of `2^t * 1000` ms
for the successive retry counts `t = c+1, c+2, …`, and the number of rounds
exceeds the number of sleeps by one. -/
theorem processBatchGo_trace_shape (parse : String → Option Json) (api : Api)
    (ci : ColumnInfo) (mR : Nat) :
    ∀ (fuel : Nat) (L : List Nat) (c : Nat) (rows : Rows)
      (res : List SuccessInfo) (inv : List (List Nat)) (slp : List Nat),
      c ≤ mR → mR + 1 ≤ fuel + c →
      ∃ R : Nat,
        (processBatchGo parse api ci mR fuel rows L c res inv
            slp).2.1.invocations.length = inv.length + R ∧
        (processBatchGo parse api ci mR fuel rows L c res inv slp).2.1.sleeps
          = slp ++ (List.range' (c + 1) (R - 1)).map (fun t => 2 ^ t * 1000) ∧
        (L = [] → R = 0) ∧ (L ≠ [] → 1 ≤ R) := by
  intro fuel
  induction fuel with
  | zero => intro L c rows res inv slp hc hfuel; omega
  | succ fuel ih =>
    intro L c rows res inv slp hc hfuel
    cases L with
    | nil =>
      rw [processBatchGo_nil_eq]
      refine ⟨0, by simp, by simp, fun _ => rfl, fun hne => absurd rfl hne⟩
    | cons a as =>
      obtain ⟨rows1, hstep⟩ := processBatchGo_round parse api ci mR fuel rows
        (a :: as) c res inv slp (by simp) (failsAt api c) (errOf api c)
        (okOf api c) (fun i _ => api_eq_cond api c i)
      rw [hstep]
      cases hfe : ((a :: as).filter (failsAt api c)).isEmpty with
      | true =>
        simp only [hfe, if_true]
        refine ⟨1, ?_, ?_, ?_, ?_⟩
        · simp
        · simp
        · intro h; exact absurd h (List.cons_ne_nil a as)
        · intro _; exact Nat.le_refl 1
      | false =>
        simp only [hfe, Bool.false_eq_true, if_false]
        by_cases hmr : mR < c + 1
        · simp only [if_pos hmr]
          refine ⟨1, ?_, ?_, ?_, ?_⟩
          · simp
          · simp
          · intro h; exact absurd h (List.cons_ne_nil a as)
          · intro _; exact Nat.le_refl 1
        · simp only [if_neg hmr]
          obtain ⟨R1, h1, h2, _, h4⟩ := ih ((a :: as).filter (failsAt api c))
            (c + 1) rows1
            (res ++ ((a :: as).filter (fun i => !failsAt api c i)).map
              (fun i => mkSuccessInfo (callOpenRouterAPI (okOf api c i)) i))
            (inv ++ [a :: as]) (slp ++ [2 ^ (c + 1) * 1000])
            (by omega) (by omega)
          have hR1 : 1 ≤ R1 := h4 (List.isEmpty_eq_false.mp hfe)
          refine ⟨R1 + 1, ?_, ?_, ?_, ?_⟩
          · rw [h1]
            simp only [List.length_append, List.length_cons, List.length_nil]
            omega
          · rw [h2, List.append_assoc]
            have hrr : List.range' (c + 1) R1 =
                (c + 1) :: List.range' (c + 1 + 1) (R1 - 1) := by
              conv_lhs => rw [show R1 = (R1 - 1) + 1 from by omega]
              rw [List.range'_succ]
            rw [show R1 + 1 - 1 = R1 by omega, hrr]
            simp
          · intro h; exact absurd h (List.cons_ne_nil a as)
          · intro _; omega

/-- **C4**: for every batch and every oracle, the sleep trace is exactly
`2000, 4000, 8000, …` ms — the delay slept before retry round `r` is
`2^r` seconds — so successive delays strictly double starting from 2 s, and
each retry round suspends the whole batch exactly once (rounds = sleeps + 1),
not once per failing row. -/
theorem c4_backoff_doubling (parse : String → Option Json) (api : Api)
    (ci : ColumnInfo) (rows : Rows) (bs be mR : Nat) :
    (processBatch parse api rows bs be ci mR).2.1.sleeps =
      (List.range' 1
        (processBatch parse api rows bs be ci mR).2.1.sleeps.length).map
        (fun rr => 2 ^ rr * 1000) ∧
    (∀ k x y,
      (processBatch parse api rows bs be ci mR).2.1.sleeps[k]? = some x →
      (processBatch parse api rows bs be ci mR).2.1.sleeps[k + 1]? = some y →
      y = 2 * x) ∧
    ((processBatch parse api rows bs be ci mR).2.1.invocations = [] ∨
      (processBatch parse api rows bs be ci mR).2.1.invocations.length =
        (processBatch parse api rows bs be ci mR).2.1.sleeps.length + 1) := by
  obtain ⟨R, h1, h2, h3, h4⟩ := processBatchGo_trace_shape parse api ci mR
    (mR + 2) (List.range' bs (be - bs)) 0 rows [] [] []
    (Nat.zero_le _) (by omega)
  have hb : processBatch parse api rows bs be ci mR =
      processBatchGo parse api ci mR (mR + 2) rows
        (List.range' bs (be - bs)) 0 [] [] [] := rfl
  rw [hb, h2]
  have hlen : ((List.range' (0 + 1) (R - 1)).map
      (fun t => 2 ^ t * 1000)).length = R - 1 := by
    simp
  constructor
  · simp only [List.nil_append, hlen, Nat.zero_add]
  constructor
  · intro k x y hx hy
    simp only [List.nil_append] at hx hy
    rw [List.getElem?_map] at hx hy
    have hkr : k + 1 < R - 1 := by
      by_contra hcon
      rw [List.getElem?_eq_none (by simp; omega)] at hy
      exact Option.noConfusion hy
    rw [List.getElem?_range' _ _ (by omega : k < R - 1)] at hx
    rw [List.getElem?_range' _ _ hkr] at hy
    simp only [Option.map_some', Option.some.injEq] at hx hy
    subst hx
    subst hy
    ring
  · by_cases hnil : List.range' bs (be - bs) = []
    · left
      have hR0 : R = 0 := h3 hnil
      refine List.eq_nil_of_length_eq_zero ?_
      rw [h1, hR0]
      rfl
    · right
      have hR1 : 1 ≤ R := h4 hnil
      rw [h1, List.nil_append, hlen]
      simp only [List.length_nil]
      omega

/-- Concrete oracle for the exhaustion witnesses: rows other than 0 fail on
every attempt. -/
def apiAllFail : Api := fun _ i => if i == 0 then .ok rawC1 else .error eC1

/-- **C4 witness**: the doubling theorem applied to a concrete
always-failing batch, and its second conjunct exercised at the first two
sleeps (2 s then 4 s). -/
theorem c4_witness :
    ((processBatch (fun _ => none) apiAllFail rowsC1 0 3 (.single "Out")
        10).2.1.sleeps =
      (List.range' 1
        (processBatch (fun _ => none) apiAllFail rowsC1 0 3 (.single "Out")
          10).2.1.sleeps.length).map (fun rr => 2 ^ rr * 1000)) ∧
    (4000 : Nat) = 2 * 2000 :=
  ⟨(c4_backoff_doubling (fun _ => none) apiAllFail (.single "Out") rowsC1
      0 3 10).1,
   (c4_backoff_doubling (fun _ => none) apiAllFail (.single "Out") rowsC1
      0 3 10).2.1 0 2000 4000 (by decide) (by decide)⟩

/-! ## De-duplication of the error summary -/

theorem summaryInsert_cons_ne (p : String × List Nat)
    (s : List (String × List Nat)) (k : String) (v : Nat)
    (hp : (p.1 == k) = false) :
    summaryInsert (p :: s) k v = p :: summaryInsert s k v := by
  unfold summaryInsert
  simp only [List.any_cons, hp, Bool.false_or]
  by_cases ha : (s.any fun q => q.1 == k) = true
  · simp only [ha, if_true, List.map_cons, hp, Bool.false_eq_true, if_false]
  · simp only [Bool.not_eq_true] at ha
    simp only [ha, Bool.false_eq_true, if_false, List.cons_append]

theorem map_update_id (s : List (String × List Nat)) (k : String) (v : Nat)
    (hnot : (s.any fun q => q.1 == k) = false) :
    s.map (fun q => if q.1 == k then (q.1, q.2 ++ [v]) else q) = s := by
  induction s with
  | nil => rfl
  | cons q s ih =>
    simp only [List.any_cons, Bool.or_eq_false_iff] at hnot
    simp only [List.map_cons, hnot.1, Bool.false_eq_true, if_false]
    rw [ih hnot.2]

theorem summaryInsert_cons_eq (p : String × List Nat)
    (s : List (String × List Nat)) (k : String) (v : Nat)
    (hp : (p.1 == k) = true)
    (hnot : (s.any fun q => q.1 == k) = false) :
    summaryInsert (p :: s) k v = (p.1, p.2 ++ [v]) :: s := by
  unfold summaryInsert
  simp only [List.any_cons, hp, Bool.true_or, if_true, List.map_cons, hp,
    if_true]
  rw [map_update_id s k v hnot]

theorem map_fst_update (s : List (String × List Nat)) (k : String) (v : Nat) :
    (s.map (fun q => if q.1 == k then (q.1, q.2 ++ [v]) else q)).map Prod.fst
      = s.map Prod.fst := by
  induction s with
  | nil => rfl
  | cons q s ih =>
    simp only [List.map_cons]
    by_cases hq : (q.1 == k) = true
    · simp only [hq, if_true]
      rw [ih]
    · simp only [Bool.not_eq_true] at hq
      simp only [hq, Bool.false_eq_true, if_false]
      rw [ih]

theorem any_eq_false_not_mem_keys (s : List (String × List Nat)) (k : String)
    (h : (s.any fun q => q.1 == k) = false) : k ∉ s.map Prod.fst := by
  intro hmem
  rcases List.mem_map.mp hmem with ⟨q, hq, hqk⟩
  rw [List.any_eq_false] at h
  have := h q hq
  simp [hqk] at this

theorem keys_not_mem_any_eq_false (s : List (String × List Nat)) (k : String)
    (h : k ∉ s.map Prod.fst) : (s.any fun q => q.1 == k) = false := by
  rw [List.any_eq_false]
  intro q hq
  simp only [Bool.not_eq_true, beq_eq_false_iff_ne, ne_eq]
  intro hqk
  exact h (List.mem_map.mpr ⟨q, hq, hqk⟩)

theorem summaryInsert_keys_nodup (s : List (String × List Nat)) (k : String)
    (v : Nat) (h : (s.map Prod.fst).Nodup) :
    ((summaryInsert s k v).map Prod.fst).Nodup := by
  unfold summaryInsert
  by_cases ha : (s.any fun q => q.1 == k) = true
  · simp only [ha, if_true]
    rw [map_fst_update]
    exact h
  · simp only [Bool.not_eq_true] at ha
    simp only [ha, Bool.false_eq_true, if_false, List.map_append,
      List.map_cons, List.map_nil]
    rw [List.nodup_append]
    refine ⟨h, List.nodup_singleton k, ?_⟩
    intro a hamem hbmem
    simp only [List.mem_singleton] at hbmem
    subst hbmem
    exact any_eq_false_not_mem_keys s a ha hamem

theorem buildErrorSummary_keys_nodup_aux
    (fl : List (Nat × ApiError)) :
    ∀ s : List (String × List Nat), (s.map Prod.fst).Nodup →
      (((fl.foldl (fun acc f => summaryInsert acc (errorKey f.2) (f.1 + 1))
        s).map Prod.fst)).Nodup := by
  induction fl with
  | nil => intro s h; exact h
  | cons q fl ih =>
    intro s h
    exact ih _ (summaryInsert_keys_nodup s (errorKey q.2) (q.1 + 1) h)

/-- The signatures of the error summary are pairwise distinct. -/
theorem buildErrorSummary_keys_nodup (fl : List (Nat × ApiError)) :
    ((buildErrorSummary fl).map Prod.fst).Nodup :=
  buildErrorSummary_keys_nodup_aux fl [] List.nodup_nil

theorem summaryInsert_flatten_perm (k : String) (v : Nat) :
    ∀ s : List (String × List Nat), (s.map Prod.fst).Nodup →
      ((summaryInsert s k v).map Prod.snd).flatten.Perm
        ((s.map Prod.snd).flatten ++ [v]) := by
  intro s
  induction s with
  | nil => intro _; simp [summaryInsert]
  | cons p s ih =>
    intro hnd
    simp only [List.map_cons, List.nodup_cons] at hnd
    by_cases hp : (p.1 == k) = true
    · have hpk : p.1 = k := eq_of_beq hp
      have hany : (s.any fun q => q.1 == k) = false := by
        apply keys_not_mem_any_eq_false
        rw [← hpk]
        exact hnd.1
      rw [summaryInsert_cons_eq p s k v hp hany]
      simp only [List.map_cons, List.flatten_cons]
      rw [List.append_assoc, List.append_assoc]
      exact List.Perm.append_left _ List.perm_append_comm
    · simp only [Bool.not_eq_true] at hp
      rw [summaryInsert_cons_ne p s k v hp]
      simp only [List.map_cons, List.flatten_cons]
      rw [List.append_assoc]
      exact List.Perm.append_left _ (ih hnd.2)

theorem buildErrorSummary_flatten_perm_aux :
    ∀ (fl : List (Nat × ApiError)) (s : List (String × List Nat)),
      (s.map Prod.fst).Nodup →
      ((fl.foldl (fun acc f => summaryInsert acc (errorKey f.2) (f.1 + 1))
          s).map Prod.snd).flatten.Perm
        ((s.map Prod.snd).flatten ++ fl.map (fun q => q.1 + 1)) := by
  intro fl
  induction fl with
  | nil => intro s _; simp
  | cons q fl ih =>
    intro s hnd
    simp only [List.foldl_cons]
    have h1 := ih (summaryInsert s (errorKey q.2) (q.1 + 1))
      (summaryInsert_keys_nodup s (errorKey q.2) (q.1 + 1) hnd)
    have h2 := summaryInsert_flatten_perm (errorKey q.2) (q.1 + 1) s hnd
    have h3 : ((s.map Prod.snd).flatten ++ [q.1 + 1]) ++
        fl.map (fun q => q.1 + 1) =
        (s.map Prod.snd).flatten ++ (q.1 + 1) :: fl.map (fun q => q.1 + 1) := by
      simp [List.append_assoc]
    refine h1.trans ?_
    rw [List.map_cons, ← h3]
    exact List.Perm.append_right _ h2

/-- Every failing row appears exactly once across the summary buckets: the
buckets jointly enumerate the reported failing rows. -/
theorem buildErrorSummary_flatten_perm (fl : List (Nat × ApiError)) :
    ((buildErrorSummary fl).map Prod.snd).flatten.Perm
      (fl.map (fun q => q.1 + 1)) := by
  have h := buildErrorSummary_flatten_perm_aux fl [] List.nodup_nil
  simpa using h

theorem summaryInsert_sound (P : String → Nat → Prop)
    (s : List (String × List Nat)) (k : String) (v : Nat)
    (hs : ∀ p ∈ s, ∀ j ∈ p.2, P p.1 j) (hv : P k v) :
    ∀ p ∈ summaryInsert s k v, ∀ j ∈ p.2, P p.1 j := by
  intro p hp j hj
  unfold summaryInsert at hp
  by_cases ha : (s.any fun q => q.1 == k) = true
  · simp only [ha, if_true] at hp
    rcases List.mem_map.mp hp with ⟨q, hq, hupd⟩
    by_cases hqk : (q.1 == k) = true
    · rw [if_pos hqk] at hupd
      rw [← hupd] at hj
      rcases List.mem_append.mp hj with hj1 | hj2
      · rw [← hupd]
        exact hs q hq j hj1
      · simp only [List.mem_singleton] at hj2
        subst hj2
        rw [← hupd]
        have hqk2 : q.1 = k := eq_of_beq hqk
        rw [hqk2]
        exact hv
    · rw [if_neg hqk] at hupd
      rw [← hupd] at hj ⊢
      exact hs q hq j hj
  · simp only [Bool.not_eq_true] at ha
    simp only [ha, Bool.false_eq_true, if_false] at hp
    rcases List.mem_append.mp hp with hp1 | hp2
    · exact hs p hp1 j hj
    · simp only [List.mem_singleton] at hp2
      subst hp2
      simp only [List.mem_singleton] at hj
      subst hj
      exact hv

theorem summaryInsert_preserve (s : List (String × List Nat)) (k : String)
    (v : Nat) :
    ∀ p ∈ s, ∃ p' ∈ summaryInsert s k v, p'.1 = p.1 ∧ ∀ j ∈ p.2, j ∈ p'.2 := by
  intro p hp
  unfold summaryInsert
  by_cases ha : (s.any fun q => q.1 == k) = true
  · simp only [ha, if_true]
    refine ⟨if (p.1 == k) = true then (p.1, p.2 ++ [v]) else p,
      List.mem_map.mpr ⟨p, hp, by split <;> rfl⟩, ?_, ?_⟩
    · split <;> rfl
    · intro j hj
      split
      · exact List.mem_append_left _ hj
      · exact hj
  · simp only [Bool.not_eq_true] at ha
    simp only [ha, Bool.false_eq_true, if_false]
    exact ⟨p, List.mem_append_left _ hp, rfl, fun j hj => hj⟩

theorem summaryInsert_creates (s : List (String × List Nat)) (k : String)
    (v : Nat) :
    ∃ p ∈ summaryInsert s k v, p.1 = k ∧ v ∈ p.2 := by
  unfold summaryInsert
  by_cases ha : (s.any fun q => q.1 == k) = true
  · rcases List.any_eq_true.mp ha with ⟨q, hq, hqk⟩
    refine ⟨(q.1, q.2 ++ [v]), ?_, eq_of_beq hqk, by simp⟩
    simp only [ha, if_true]
    exact List.mem_map.mpr ⟨q, hq, by rw [if_pos hqk]⟩
  · simp only [Bool.not_eq_true] at ha
    simp only [ha, Bool.false_eq_true, if_false]
    exact ⟨(k, [v]), List.mem_append_right _ (by simp), rfl, by simp⟩

theorem foldl_summaryInsert_preserve :
    ∀ (fl : List (Nat × ApiError)) (s : List (String × List Nat))
      (p : String × List Nat), p ∈ s →
      ∃ p' ∈ fl.foldl (fun acc f => summaryInsert acc (errorKey f.2) (f.1 + 1)) s,
        p'.1 = p.1 ∧ ∀ j ∈ p.2, j ∈ p'.2 := by
  intro fl
  induction fl with
  | nil => intro s p hp; exact ⟨p, hp, rfl, fun j hj => hj⟩
  | cons q fl ih =>
    intro s p hp
    rcases summaryInsert_preserve s (errorKey q.2) (q.1 + 1) p hp with
      ⟨p1, hp1, hk1, hsub1⟩
    rcases ih _ p1 hp1 with ⟨p2, hp2, hk2, hsub2⟩
    exact ⟨p2, hp2, hk2.trans hk1, fun j hj => hsub2 j (hsub1 j hj)⟩

/-- Completeness of the summary: every failing row is listed (1-based) in
the bucket of its own error signature. -/
theorem buildErrorSummary_complete (fl : List (Nat × ApiError)) :
    ∀ q ∈ fl, ∃ p ∈ buildErrorSummary fl,
      p.1 = errorKey q.2 ∧ (q.1 + 1) ∈ p.2 := by
  suffices haux : ∀ (fl2 : List (Nat × ApiError)) (s : List (String × List Nat)),
      ∀ q ∈ fl2,
      ∃ p ∈ fl2.foldl (fun acc f => summaryInsert acc (errorKey f.2) (f.1 + 1)) s,
        p.1 = errorKey q.2 ∧ (q.1 + 1) ∈ p.2 by
    intro q hq
    exact haux fl [] q hq
  intro fl2
  induction fl2 with
  | nil => intro s q hq; cases hq
  | cons q0 fl2 ih =>
    intro s q hq
    rcases List.mem_cons.mp hq with h | h
    · subst h
      rcases summaryInsert_creates s (errorKey q.2) (q.1 + 1) with
        ⟨p1, hp1, hk1, hv1⟩
      rcases foldl_summaryInsert_preserve fl2 _ p1 hp1 with
        ⟨p2, hp2, hk2, hsub⟩
      exact ⟨p2, hp2, hk2.trans hk1, hsub _ hv1⟩
    · exact ih _ q h

/-- Soundness of the summary: every bucket entry is a reported failing row
listed under its own error signature. -/
theorem buildErrorSummary_sound (fl : List (Nat × ApiError)) :
    ∀ p ∈ buildErrorSummary fl, ∀ j ∈ p.2,
      ∃ q ∈ fl, p.1 = errorKey q.2 ∧ j = q.1 + 1 := by
  have haux : ∀ (fl2 : List (Nat × ApiError)) (s : List (String × List Nat))
      (P : String → Nat → Prop),
      (∀ p ∈ s, ∀ j ∈ p.2, P p.1 j) →
      (∀ q ∈ fl2, P (errorKey q.2) (q.1 + 1)) →
      ∀ p ∈ fl2.foldl (fun acc f => summaryInsert acc (errorKey f.2) (f.1 + 1)) s,
        ∀ j ∈ p.2, P p.1 j := by
    intro fl2
    induction fl2 with
    | nil => intro s P hs _ p hp; exact hs p hp
    | cons q fl2 ih =>
      intro s P hs hq p hp
      exact ih _ P
        (summaryInsert_sound P s _ _ hs (hq q (List.mem_cons_self q fl2)))
        (fun q2 h2 => hq q2 (List.mem_cons_of_mem _ h2)) p hp
  exact haux fl []
    (fun key j => ∃ q ∈ fl, key = errorKey q.2 ∧ j = q.1 + 1)
    (fun p hp => absurd hp (List.not_mem_nil p))
    (fun q hq => ⟨q, hq, rfl, rfl⟩)

/-- If every pending row keeps failing on every remaining round, the retry
loop relaunches the same set every round up to the ceiling and then throws
the aggregate error naming the still-failing rows. -/
theorem processBatchGo_allfail (parse : String → Option Json) (api : Api)
    (ci : ColumnInfo) (mR : Nat) (L : List Nat) (e : Nat → ApiError)
    (hL : L ≠ []) :
    ∀ fuel c : Nat, c ≤ mR → mR + 1 ≤ fuel + c →
      (∀ t i, c ≤ t → t ≤ mR → i ∈ L → api t i = .error (e i)) →
      ∀ (rows : Rows) (res : List SuccessInfo) (inv : List (List Nat))
        (slp : List Nat),
      ∃ rows' : Rows,
        processBatchGo parse api ci mR fuel rows L c res inv slp =
          (rows',
           ⟨inv ++ List.replicate (mR + 1 - c) L,
            slp ++ (List.range' (c + 1) (mR - c)).map (fun t => 2 ^ t * 1000)⟩,
           .error ⟨L.map (· + 1),
                   buildErrorSummary (L.map (fun i => (i, e i))),
                   toString L.length ++ " row(s) failed after " ++
                     toString mR ++ " retries"⟩) := by
  intro fuel
  induction fuel with
  | zero => intro c hc hfuel _ rows res inv slp; omega
  | succ f1 ih =>
    intro c hc hfuel hapi rows res inv slp
    obtain ⟨rows1, hstep⟩ := processBatchGo_round parse api ci mR f1 rows L c
      res inv slp hL (fun _ => true) e (fun _ => ⟨"", none⟩)
      (fun i hi => by rw [hapi c i le_rfl hc hi]; simp)
    have hne : L.isEmpty = false := by
      cases L with
      | nil => exact absurd rfl hL
      | cons a as => rfl
    simp only [List.filter_true, Bool.not_true, List.filter_false,
      List.map_nil, List.append_nil, hne, Bool.false_eq_true, if_false]
      at hstep
    by_cases hlast : mR < c + 1
    · have hceq : c = mR := by omega
      rw [if_pos hlast] at hstep
      subst hceq
      refine ⟨rows1, ?_⟩
      rw [hstep]
      rw [show c + 1 - c = 1 from by omega, show c - c = 0 from by omega,
        List.replicate_one, List.range'_zero, List.map_nil, List.append_nil]
    · rw [if_neg hlast] at hstep
      obtain ⟨rows2, hstep2⟩ := ih (c + 1) (by omega) (by omega)
        (fun t i ht1 ht2 hi => hapi t i (by omega) ht2 hi) rows1 res
        (inv ++ [L]) (slp ++ [2 ^ (c + 1) * 1000])
      have hA : (inv ++ [L]) ++ List.replicate (mR + 1 - (c + 1)) L =
          inv ++ List.replicate (mR + 1 - c) L := by
        rw [List.append_assoc]
        congr 1
        rw [show mR + 1 - c = (mR + 1 - (c + 1)) + 1 from by omega,
          List.replicate_succ]
        rfl
      have hB : (slp ++ [2 ^ (c + 1) * 1000]) ++
          (List.range' (c + 1 + 1) (mR - (c + 1))).map (fun t => 2 ^ t * 1000) =
          slp ++ (List.range' (c + 1) (mR - c)).map (fun t => 2 ^ t * 1000) := by
        rw [List.append_assoc]
        congr 1
        rw [show mR - c = (mR - (c + 1)) + 1 from by omega, List.range'_succ,
          List.map_cons]
        rfl
      rw [hA, hB] at hstep2
      exact ⟨rows2, hstep.trans hstep2⟩

/-- **C2**: when the rows selected by `f` fail on every attempt up to the
default ceiling of 10 retries, the controller relaunches exactly those rows
each round and then throws a fatal aggregate error naming every
still-failing row (1-based), with a summary keyed by de-duplicated error
signatures whose buckets exactly list the rows each signature affects; the
error propagates uncaught through the column driver and the orchestrator —
the run ends with this very error and the final write never happens. -/
theorem c2_exhaustion_fatal (parse : String → Option Json) (api : Api)
    (ci : ColumnInfo) (rows : Rows) (s n : Nat) (f : Nat → Bool)
    (e : Nat → ApiError) (r : Nat → RawResponse) (hn : 0 < n)
    (hKne : (List.range' s n).filter f ≠ [])
    (hapi : ∀ t i, t ≤ 10 → i ∈ List.range' s n →
      api t i = if f i then .error (e i) else .ok (r i)) :
    ∃ rows' : Rows,
      processBatch parse api rows s (s + n) ci 10 =
        (rows',
         ⟨List.range' s n ::
            List.replicate 10 ((List.range' s n).filter f),
          (List.range' 1 10).map (fun t => 2 ^ t * 1000)⟩,
         .error ⟨((List.range' s n).filter f).map (· + 1),
                 buildErrorSummary (((List.range' s n).filter f).map
                   (fun i => (i, e i))),
                 toString ((List.range' s n).filter f).length ++
                   " row(s) failed after " ++ toString 10 ++ " retries"⟩) ∧
      ((buildErrorSummary (((List.range' s n).filter f).map
          (fun i => (i, e i)))).map Prod.fst).Nodup ∧
      ((buildErrorSummary (((List.range' s n).filter f).map
          (fun i => (i, e i)))).map Prod.snd).flatten.Perm
        (((List.range' s n).filter f).map (· + 1)) ∧
      (∀ p ∈ buildErrorSummary (((List.range' s n).filter f).map
          (fun i => (i, e i))), ∀ j ∈ p.2,
        ∃ i ∈ (List.range' s n).filter f,
          p.1 = errorKey (e i) ∧ j = i + 1) ∧
      (∀ i ∈ (List.range' s n).filter f,
        ∃ p ∈ buildErrorSummary (((List.range' s n).filter f).map
          (fun i => (i, e i))),
          p.1 = errorKey (e i) ∧ (i + 1) ∈ p.2) ∧
      (∀ cfg : ColumnConfig, cfg.info = ci → cfg.batchSize = n → s = 0 →
        rows.length = n →
        ∀ (outputFileName : String) (ckptOks : Nat → Nat → Bool),
          mainRun parse (fun _ => api) [cfg] outputFileName ckptOks rows =
            (rows', [],
             .error ⟨((List.range' s n).filter f).map (· + 1),
                     buildErrorSummary (((List.range' s n).filter f).map
                       (fun i => (i, e i))),
                     toString ((List.range' s n).filter f).length ++
                       " row(s) failed after " ++ toString 10 ++
                       " retries"⟩)) := by
  have hlen : (List.range' s n).length = n := List.length_range' s 1 n
  have hne : List.range' s n ≠ [] := by
    intro h
    rw [h] at hlen
    simp at hlen
    omega
  have hb : processBatch parse api rows s (s + n) ci 10 =
      processBatchGo parse api ci 10 (11 + 1) rows (List.range' s n)
        0 [] [] [] := by
    unfold processBatch
    rw [show s + n - s = n by omega]
  obtain ⟨rows1, hstep⟩ := processBatchGo_round parse api ci 10 11 rows
    (List.range' s n) 0 [] [] [] hne f e r
    (fun i hi => hapi 0 i (by omega) hi)
  have hfe : ((List.range' s n).filter f).isEmpty = false :=
    List.isEmpty_eq_false.mpr hKne
  rw [hfe] at hstep
  rw [if_neg (show ¬((false : Bool) = true) by simp)] at hstep
  rw [if_neg (show ¬(10 < 0 + 1) by omega)] at hstep
  obtain ⟨rows2, hstep2⟩ := processBatchGo_allfail parse api ci 10
    ((List.range' s n).filter f) e hKne 11 (0 + 1) (by omega) (by omega)
    (fun t i ht1 ht2 hi => by
      have hmem := List.mem_filter.mp hi
      rw [hapi t i ht2 hmem.1, if_pos hmem.2])
    rows1
    ([] ++ (((List.range' s n).filter (fun i => !f i)).map
      (fun i => mkSuccessInfo (callOpenRouterAPI (r i)) i)))
    ([] ++ [List.range' s n]) ([] ++ [2 ^ (0 + 1) * 1000])
  have hinv : ([] ++ [List.range' s n]) ++
      List.replicate (10 + 1 - (0 + 1)) ((List.range' s n).filter f) =
      List.range' s n ::
        List.replicate 10 ((List.range' s n).filter f) := by
    rw [show (10 : Nat) + 1 - (0 + 1) = 10 from rfl]
    rfl
  have hsl : ([] ++ [2 ^ (0 + 1) * 1000]) ++
      (List.range' (0 + 1 + 1) (10 - (0 + 1))).map (fun t => 2 ^ t * 1000) =
      (List.range' 1 10).map (fun t => 2 ^ t * 1000) := by decide
  rw [hinv, hsl] at hstep2
  have hfinal : processBatch parse api rows s (s + n) ci 10 =
      (rows2,
       ⟨List.range' s n ::
          List.replicate 10 ((List.range' s n).filter f),
        (List.range' 1 10).map (fun t => 2 ^ t * 1000)⟩,
       .error ⟨((List.range' s n).filter f).map (· + 1),
               buildErrorSummary (((List.range' s n).filter f).map
                 (fun i => (i, e i))),
               toString ((List.range' s n).filter f).length ++
                 " row(s) failed after " ++ toString 10 ++ " retries"⟩) := by
    rw [hb, hstep, hstep2]
  refine ⟨rows2, hfinal, buildErrorSummary_keys_nodup _, ?_, ?_, ?_, ?_⟩
  · have hperm := buildErrorSummary_flatten_perm
      (((List.range' s n).filter f).map (fun i => (i, e i)))
    rw [List.map_map] at hperm
    exact hperm
  · intro p hp j hj
    obtain ⟨q, hq, h1, h2⟩ := buildErrorSummary_sound _ p hp j hj
    rcases List.mem_map.mp hq with ⟨i, hi, hqe⟩
    subst hqe
    exact ⟨i, hi, h1, h2⟩
  · intro i hi
    obtain ⟨p, hp, h1, h2⟩ := buildErrorSummary_complete _ (i, e i)
      (List.mem_map_of_mem (fun i => (i, e i)) hi)
    exact ⟨p, hp, h1, h2⟩
  · intro cfg hinfo hbs hs hrl outputFileName ckptOks
    subst hs
    have hcol : processColumn parse api cfg rows
        (progressPathOf outputFileName) (ckptOks 0) =
        (rows2, [],
         .error ⟨((List.range' 0 n).filter f).map (· + 1),
                 buildErrorSummary (((List.range' 0 n).filter f).map
                   (fun i => (i, e i))),
                 toString ((List.range' 0 n).filter f).length ++
                   " row(s) failed after " ++ toString 10 ++ " retries"⟩) := by
      unfold processColumn
      rw [hinfo, hbs, hrl]
      simp only [processColumnGo]
      rw [if_neg (show ¬(n ≤ 0) from by omega),
        show min (0 + n) n = 0 + n from by omega, hfinal]
    unfold mainRun
    simp only [runColumnsGo]
    rw [hcol]
    rfl

/-- **C2 witness**: three rows of which rows 1 and 2 fail on all eleven
attempts — the controller throws the aggregate error and a run over a
single column ends with that very error and no final write. -/
theorem c2_witness :
    ∃ rows' : Rows,
      processBatch (fun _ => none) apiAllFail rowsC1 0 (0 + 3) (.single "Out")
          10 =
        (rows',
         ⟨List.range' 0 3 ::
            List.replicate 10 ((List.range' 0 3).filter (fun i => !(i == 0))),
          (List.range' 1 10).map (fun t => 2 ^ t * 1000)⟩,
         .error ⟨((List.range' 0 3).filter (fun i => !(i == 0))).map (· + 1),
                 buildErrorSummary
                   (((List.range' 0 3).filter (fun i => !(i == 0))).map
                     (fun i => (i, eC1))),
                 toString ((List.range' 0 3).filter
                     (fun i => !(i == 0))).length ++
                   " row(s) failed after " ++ toString 10 ++ " retries"⟩) ∧
      mainRun (fun _ => none) (fun _ => apiAllFail)
          [.single ⟨"Out", "m", 3, 0, "p"⟩] "out.csv" (fun _ _ => true)
          rowsC1 =
        (rows', [],
         .error ⟨((List.range' 0 3).filter (fun i => !(i == 0))).map (· + 1),
                 buildErrorSummary
                   (((List.range' 0 3).filter (fun i => !(i == 0))).map
                     (fun i => (i, eC1))),
                 toString ((List.range' 0 3).filter
                     (fun i => !(i == 0))).length ++
                   " row(s) failed after " ++ toString 10 ++ " retries"⟩) := by
  obtain ⟨rows', h1, _, _, _, _, h6⟩ := c2_exhaustion_fatal (fun _ => none)
    apiAllFail (.single "Out") rowsC1 0 3 (fun i => !(i == 0)) (fun _ => eC1)
    (fun _ => rawC1) (by decide) (by decide)
    (by
      intro t i ht hi
      rw [show List.range' 0 3 = [0, 1, 2] from rfl] at hi
      fin_cases hi <;> rfl)
  exact ⟨rows', h1,
    h6 (.single ⟨"Out", "m", 3, 0, "p"⟩) rfl rfl rfl rfl "out.csv"
      (fun _ _ => true)⟩

/-! ## Equivalence of the two `processBatch` variants on all-success
single-column batches -/

theorem foldl_congr_mem {α β : Type} (f g : α → β → α) :
    ∀ (l : List β) (a : α), (∀ acc x, x ∈ l → f acc x = g acc x) →
      l.foldl f a = l.foldl g a := by
  intro l
  induction l with
  | nil => intro a _; rfl
  | cons x xs ih =>
    intro a h
    simp only [List.foldl_cons]
    rw [h a x (List.mem_cons_self x xs)]
    exact ih _ (fun acc y hy => h acc y (List.mem_cons_of_mem _ hy))

/-- The row-store fold of the current variant on an all-success round sets
each launched row to its own updated row, computed from the pre-round
table. -/
theorem fold_store_allok (parse : String → Option Json) (api : Api)
    (name : String) (rows : Rows) (r : Nat → RawResponse) (L : List Nat)
    (hapi : ∀ i ∈ L, api 0 i = .ok (r i)) :
    ((L.map (fun rowIndex =>
        (rowIndex, processRow parse (rows.getD rowIndex []) rowIndex
          (.single name) (api 0 rowIndex)))).foldl (fun acc pr =>
      match pr.2 with
      | .ok (row, _) => acc.set pr.1 row
      | .error _ => acc) rows) =
    L.foldl (fun acc i =>
      acc.set i (setField (rows.getD i []) name
        (.str (jsTrim (r i).content)))) rows := by
  rw [List.foldl_map]
  apply foldl_congr_mem
  intro acc i hi
  rw [hapi i hi]
  rfl

/-- The current variant finishes an all-success batch in one round. -/
theorem processBatchGo_allok_new (parse : String → Option Json) (api : Api)
    (name : String) (mR fuel : Nat) (rows : Rows) (L : List Nat)
    (r : Nat → RawResponse) (hL : L ≠ [])
    (hapi : ∀ i ∈ L, api 0 i = .ok (r i)) :
    processBatchGo parse api (.single name) mR (fuel + 1) rows L 0 [] [] [] =
      (L.foldl (fun acc i =>
         acc.set i (setField (rows.getD i []) name
           (.str (jsTrim (r i).content)))) rows,
       ⟨[L], []⟩,
       .ok (L.map (fun i => mkSuccessInfo (callOpenRouterAPI (r i)) i))) := by
  cases L with
  | nil => exact absurd rfl hL
  | cons a as =>
    rw [processBatchGo_cons_eq]
    have hapi' : ∀ i ∈ a :: as,
        api 0 i = if (fun _ => false) i then .error (⟨"", none⟩ : ApiError)
          else .ok (r i) := by
      intro i hi
      simp [hapi i hi]
    have hsucc := round_successes parse api (.single name) rows 0
      (fun _ => false) (fun _ => ⟨"", none⟩) r (a :: as) hapi'
    have hfail := round_failures parse api (.single name) rows 0
      (fun _ => false) (fun _ => ⟨"", none⟩) r (a :: as) hapi'
    simp only [List.filter_false, List.map_nil] at hfail
    simp only [Bool.not_false, List.filter_true] at hsucc
    have hfold := fold_store_allok parse api name rows r (a :: as) hapi
    simp only [hfail, hsucc, hfold, List.map_nil, List.isEmpty_nil, if_true,
      List.nil_append]

/-- One unfolding of the whole-batch retry loop of the old variant. -/
theorem processBatchOldGo_succ_eq (api : Api) (name : String) (mR : Nat)
    (L : List Nat) (fuel : Nat) (rows : Rows) (c : Nat)
    (inv : List (List Nat)) (slp : List Nat) :
    processBatchOldGo api name mR L (fuel + 1) rows c inv slp =
      (let results := L.map (fun rowIndex =>
        (rowIndex, processRowOld (rows.getD rowIndex []) rowIndex name
          (api c rowIndex)))
       let rows1 := results.foldl (fun acc pr =>
        match pr.2 with
        | .ok (row, _) => acc.set pr.1 row
        | .error _ => acc) rows
       let firstError := (results.filterMap (fun pr =>
        match pr.2 with
        | .error e => some e
        | .ok _ => none)).head?
       match firstError with
       | none =>
         (rows1, ⟨inv ++ [L], slp⟩,
          .ok (results.filterMap (fun pr => pr.2.toOption.map (·.2))))
       | some e =>
         let errorMsg :=
           match e.response.bind (·.data) with
           | some (.obj o) =>
             if truthyOptStr o.errMessage then o.errMessage.getD ""
             else e.message
           | _ => e.message
         if mR < c + 1 then
           (rows1, ⟨inv ++ [L], slp⟩,
            .error ("Batch failed after " ++ toString mR ++ " retries: " ++
              errorMsg))
         else
           processBatchOldGo api name mR L fuel rows1 (c + 1) (inv ++ [L])
             (slp ++ [2 ^ (c + 1) * 1000])) := rfl

theorem old_firstError_allok (api : Api) (name : String) (rows : Rows)
    (r : Nat → RawResponse) :
    ∀ L : List Nat, (∀ i ∈ L, api 0 i = .ok (r i)) →
      ((L.map (fun rowIndex =>
          (rowIndex, processRowOld (rows.getD rowIndex []) rowIndex name
            (api 0 rowIndex)))).filterMap (fun pr =>
        match pr.2 with
        | .error e => some e
        | .ok _ => none)) = [] := by
  intro L
  induction L with
  | nil => intro _; rfl
  | cons a as ih =>
    intro h
    simp only [List.map_cons, List.filterMap_cons,
      h a (List.mem_cons_self a as)]
    exact ih (fun i hi => h i (List.mem_cons_of_mem _ hi))

theorem old_successes_allok (api : Api) (name : String) (rows : Rows)
    (r : Nat → RawResponse) :
    ∀ L : List Nat, (∀ i ∈ L, api 0 i = .ok (r i)) →
      ((L.map (fun rowIndex =>
          (rowIndex, processRowOld (rows.getD rowIndex []) rowIndex name
            (api 0 rowIndex)))).filterMap
        (fun pr => pr.2.toOption.map (·.2))) =
      L.map (fun i => mkSuccessInfo (callOpenRouterAPI (r i)) i) := by
  intro L
  induction L with
  | nil => intro _; rfl
  | cons a as ih =>
    intro h
    simp only [List.map_cons, List.filterMap_cons,
      h a (List.mem_cons_self a as)]
    rw [ih (fun i hi => h i (List.mem_cons_of_mem _ hi))]
    rfl

theorem old_fold_store_allok (api : Api) (name : String) (rows : Rows)
    (r : Nat → RawResponse) (L : List Nat)
    (hapi : ∀ i ∈ L, api 0 i = .ok (r i)) :
    ((L.map (fun rowIndex =>
        (rowIndex, processRowOld (rows.getD rowIndex []) rowIndex name
          (api 0 rowIndex)))).foldl (fun acc pr =>
      match pr.2 with
      | .ok (row, _) => acc.set pr.1 row
      | .error _ => acc) rows) =
    L.foldl (fun acc i =>
      acc.set i (setField (rows.getD i []) name
        (.str (jsTrim (r i).content)))) rows := by
  rw [List.foldl_map]
  apply foldl_congr_mem
  intro acc i hi
  rw [hapi i hi]
  rfl

/-- The old variant finishes an all-success batch in one round, with the
same mutated rows and the same success records as the current one. -/
theorem processBatchOldGo_allok (api : Api) (name : String) (mR fuel : Nat)
    (rows : Rows) (L : List Nat) (r : Nat → RawResponse)
    (hapi : ∀ i ∈ L, api 0 i = .ok (r i)) :
    processBatchOldGo api name mR L (fuel + 1) rows 0 [] [] =
      (L.foldl (fun acc i =>
         acc.set i (setField (rows.getD i []) name
           (.str (jsTrim (r i).content)))) rows,
       ⟨[L], []⟩,
       .ok (L.map (fun i => mkSuccessInfo (callOpenRouterAPI (r i)) i))) := by
  rw [processBatchOldGo_succ_eq]
  simp only [old_firstError_allok api name rows r L hapi,
    old_successes_allok api name rows r L hapi,
    old_fold_store_allok api name rows r L hapi,
    List.head?_nil, List.nil_append]

theorem getD_foldl_set_not_mem (v : Nat → Row) :
    ∀ (L : List Nat) (rows : Rows) (j : Nat), j ∉ L →
      (L.foldl (fun acc i => acc.set i (v i)) rows).getD j [] =
        rows.getD j [] := by
  intro L
  induction L with
  | nil => intro rows j _; rfl
  | cons a as ih =>
    intro rows j hj
    simp only [List.foldl_cons]
    rw [ih (rows.set a (v a)) j (fun h => hj (List.mem_cons_of_mem _ h))]
    have hne : a ≠ j := fun h => hj (h ▸ List.mem_cons_self a as)
    rw [List.getD_eq_getElem?_getD, List.getD_eq_getElem?_getD,
      List.getElem?_set_ne hne]

theorem getD_foldl_set (v : Nat → Row) :
    ∀ (L : List Nat) (rows : Rows) (j : Nat), L.Nodup → j ∈ L →
      j < rows.length →
      (L.foldl (fun acc i => acc.set i (v i)) rows).getD j [] = v j := by
  intro L
  induction L with
  | nil => intro rows j _ hj _; cases hj
  | cons a as ih =>
    intro rows j hnd hj hlt
    simp only [List.foldl_cons]
    rcases List.mem_cons.mp hj with h | h
    · subst h
      rw [getD_foldl_set_not_mem v as (rows.set j (v j)) j
        (List.nodup_cons.mp hnd).1]
      rw [List.getD_eq_getElem?_getD, List.getElem?_set_self hlt]
      rfl
    · exact ih (rows.set a (v a)) j (List.nodup_cons.mp hnd).2 h
        (by simpa using hlt)

/-- **C10**: on a single-column batch whose every invocation succeeds on the
first attempt, the current `processBatch` and the old whole-batch-retry
variant are equivalent: identical mutated rows, an identical trace of one
invocation per row (`n` invocations, no backoff sleep), and identical
per-row success outcomes; every processed row's target field holds the
trimmed response text. -/
theorem c10_refinement_equiv (parse : String → Option Json) (api : Api)
    (rows : Rows) (s n : Nat) (name : String) (r : Nat → RawResponse)
    (hn : 0 < n)
    (hapi : ∀ i ∈ List.range' s n, api 0 i = .ok (r i)) :
    (processBatch parse api rows s (s + n) (.single name) 10).1 =
      (processBatchOld api rows s (s + n) name 10).1 ∧
    (processBatch parse api rows s (s + n) (.single name) 10).2.1 =
      (processBatchOld api rows s (s + n) name 10).2.1 ∧
    (processBatch parse api rows s (s + n) (.single name) 10).2.1 =
      ⟨[List.range' s n], []⟩ ∧
    totalInvocations
      (processBatch parse api rows s (s + n) (.single name) 10).2.1 = n ∧
    (processBatch parse api rows s (s + n) (.single name) 10).2.2 =
      .ok ((List.range' s n).map
        (fun i => mkSuccessInfo (callOpenRouterAPI (r i)) i)) ∧
    (processBatchOld api rows s (s + n) name 10).2.2 =
      .ok ((List.range' s n).map
        (fun i => mkSuccessInfo (callOpenRouterAPI (r i)) i)) ∧
    (∀ i ∈ List.range' s n, i < rows.length →
      getField
        ((processBatch parse api rows s (s + n) (.single name) 10).1.getD
          i []) name =
        some (.str (jsTrim (r i).content))) := by
  have hlen : (List.range' s n).length = n := List.length_range' s 1 n
  have hne : List.range' s n ≠ [] := by
    intro h
    rw [h] at hlen
    simp at hlen
    omega
  have hnew : processBatch parse api rows s (s + n) (.single name) 10 =
      ((List.range' s n).foldl (fun acc i =>
         acc.set i (setField (rows.getD i []) name
           (.str (jsTrim (r i).content)))) rows,
       ⟨[List.range' s n], []⟩,
       .ok ((List.range' s n).map
         (fun i => mkSuccessInfo (callOpenRouterAPI (r i)) i))) := by
    unfold processBatch
    rw [show s + n - s = n by omega]
    exact processBatchGo_allok_new parse api name 10 11 rows
      (List.range' s n) r hne hapi
  have hold : processBatchOld api rows s (s + n) name 10 =
      ((List.range' s n).foldl (fun acc i =>
         acc.set i (setField (rows.getD i []) name
           (.str (jsTrim (r i).content)))) rows,
       ⟨[List.range' s n], []⟩,
       .ok ((List.range' s n).map
         (fun i => mkSuccessInfo (callOpenRouterAPI (r i)) i))) := by
    unfold processBatchOld
    rw [show s + n - s = n by omega]
    exact processBatchOldGo_allok api name 10 11 rows (List.range' s n) r hapi
  refine ⟨by rw [hnew, hold], by rw [hnew, hold], by rw [hnew],
    ?_, by rw [hnew], by rw [hold], ?_⟩
  · rw [hnew]
    simp only [totalInvocations, List.map_cons, List.map_nil, List.sum_cons,
      List.sum_nil, hlen]
    omega
  · intro i hi hilt
    rw [hnew]
    rw [getD_foldl_set _ (List.range' s n) rows i (List.nodup_range' s n)
      hi hilt]
    exact getField_setField_self _ name _

/-- **C10 witness**: a concrete three-row all-success batch — both variants
return the same rows and traces, three invocations, and the same success
records. -/
theorem c10_witness :
    (processBatch (fun _ => none) (fun _ _ => Except.ok rawC1) rowsC1 0
        (0 + 3) (.single "Out") 10).1 =
      (processBatchOld (fun _ _ => Except.ok rawC1) rowsC1 0 (0 + 3) "Out"
        10).1 ∧
    (processBatch (fun _ => none) (fun _ _ => Except.ok rawC1) rowsC1 0
        (0 + 3) (.single "Out") 10).2.1 =
      (processBatchOld (fun _ _ => Except.ok rawC1) rowsC1 0 (0 + 3) "Out"
        10).2.1 ∧
    totalInvocations
      (processBatch (fun _ => none) (fun _ _ => Except.ok rawC1) rowsC1 0
        (0 + 3) (.single "Out") 10).2.1 = 3 ∧
    (processBatch (fun _ => none) (fun _ _ => Except.ok rawC1) rowsC1 0
        (0 + 3) (.single "Out") 10).2.2 =
      .ok ((List.range' 0 3).map
        (fun i => mkSuccessInfo (callOpenRouterAPI rawC1) i)) := by
  obtain ⟨h1, h2, h3, h4, h5, h6, h7⟩ := c10_refinement_equiv (fun _ => none)
    (fun _ _ => Except.ok rawC1) rowsC1 0 3 "Out" (fun _ => rawC1) (by decide)
    (fun i _ => rfl)
  exact ⟨h1, h2, h4, h5⟩

/-! ## Checkpointing after every batch -/

/-- Is an event a checkpoint-write attempt (successful or failed)? -/
def isCkptEvent : Event → Bool
  | .checkpoint _ _ _ => true
  | .checkpointFailed _ => true
  | _ => false

/-- Forget the outcome of a checkpoint-write attempt, keeping its occurrence
and its target path. -/
def eraseCkptEv : Event → Event
  | .checkpoint p _ _ => .checkpointFailed p
  | e => e

/-- Number of batches the column loop runs from start index `i`
(spec-side counter mirroring the loop's schedule). -/
def numBatchesGo (n bs : Nat) : Nat → Nat → Nat
  | 0, _ => 0
  | fuel + 1, i => if n ≤ i then 0 else numBatchesGo n bs fuel (i + bs) + 1

theorem length_foldl_store :
    ∀ (ps : List (Nat × Except ApiError (Row × SuccessInfo))) (rows : Rows),
      (ps.foldl (fun acc pr =>
        match pr.2 with
        | .ok (row, _) => acc.set pr.1 row
        | .error _ => acc) rows).length = rows.length := by
  intro ps
  induction ps with
  | nil => intro rows; rfl
  | cons pr ps ih =>
    intro rows
    simp only [List.foldl_cons]
    cases pr.2 with
    | error e => exact ih rows
    | ok x =>
      rw [ih (rows.set pr.1 x.1)]
      exact List.length_set rows pr.1 x.1

/-- The retry loop never changes the number of rows. -/
theorem processBatchGo_length (parse : String → Option Json) (api : Api)
    (ci : ColumnInfo) (mR : Nat) :
    ∀ (fuel : Nat) (rows : Rows) (L : List Nat) (c : Nat)
      (res : List SuccessInfo) (inv : List (List Nat)) (slp : List Nat),
      (processBatchGo parse api ci mR fuel rows L c res inv slp).1.length =
        rows.length := by
  intro fuel
  induction fuel with
  | zero =>
    intro rows L c res inv slp
    cases L with
    | nil => rfl
    | cons a as => rfl
  | succ f1 ih =>
    intro rows L c res inv slp
    cases L with
    | nil => rfl
    | cons a as =>
      rw [processBatchGo_cons_eq]
      by_cases hfe : ((((a :: as).map (fun rowIndex =>
          (rowIndex, processRow parse (rows.getD rowIndex []) rowIndex ci
            (api c rowIndex)))).filterMap (fun pr =>
          match pr.2 with
          | .error err => some (pr.1, err)
          | .ok _ => none)).map (·.1)).isEmpty = true
      · simp only [hfe, if_true]
        exact length_foldl_store _ rows
      · simp only [hfe, Bool.false_eq_true, if_false]
        by_cases hmr : mR < c + 1
        · simp only [hmr, if_true]
          exact length_foldl_store _ rows
        · simp only [hmr, if_false]
          rw [ih]
          exact length_foldl_store _ rows

/-- A batch whose every invocation succeeds finishes in one round with one
invocation per row and no sleep, for any column variant. -/
theorem processBatch_allok (parse : String → Option Json) (api : Api)
    (ci : ColumnInfo) (rows : Rows) (b e : Nat) (r : Nat → RawResponse)
    (hbe : b < e) (hapi : ∀ i, api 0 i = .ok (r i)) :
    ∃ rows1 : Rows, rows1.length = rows.length ∧
      processBatch parse api rows b e ci 10 =
        (rows1, ⟨[List.range' b (e - b)], []⟩,
         .ok ((List.range' b (e - b)).map
           (fun i => mkSuccessInfo (callOpenRouterAPI (r i)) i))) := by
  have hlen : (List.range' b (e - b)).length = e - b := List.length_range' b 1 _
  have hne : List.range' b (e - b) ≠ [] := by
    intro h
    rw [h] at hlen
    simp at hlen
    omega
  obtain ⟨rows1, hstep⟩ := processBatchGo_round parse api ci 10 11 rows
    (List.range' b (e - b)) 0 [] [] [] hne (fun _ => false)
    (fun _ => ⟨"", none⟩) r (fun i _ => by simp [hapi i])
  simp only [List.filter_false, List.isEmpty_nil, if_true, Bool.not_false,
    List.filter_true, List.nil_append] at hstep
  refine ⟨rows1, ?_, hstep⟩
  have hl := processBatchGo_length parse api ci 10 (11 + 1) rows
    (List.range' b (e - b)) 0 [] [] []
  rw [hstep] at hl
  exact hl

/-- Joint invariant of the column loop under an all-success oracle: the
mutated rows and the outcome are independent of the checkpoint sink's
behaviour, the event streams agree once checkpoint outcomes are erased,
exactly one checkpoint-write attempt is made per batch, and every
checkpoint event targets the configured path with a full-size row set. -/
theorem processColumnGo_allok_props (parse : String → Option Json)
    (api : Api) (ci : ColumnInfo) (bs cd : Nat) (path : String)
    (r : Nat → RawResponse) (hbs : 0 < bs) (hpath : path ≠ "")
    (hapi : ∀ i, api 0 i = .ok (r i)) :
    ∀ (fuel i n : Nat), n ≤ fuel + i →
      ∀ (rows : Rows) (stats : ColumnStats) (ck1 ck2 : Nat → Bool)
        (evs1 evs2 : List Event),
      (processColumnGo parse api ci bs cd path ck1 n fuel i rows stats
          evs1).1 =
        (processColumnGo parse api ci bs cd path ck2 n fuel i rows stats
          evs2).1 ∧
      (processColumnGo parse api ci bs cd path ck1 n fuel i rows stats
          evs1).2.2 =
        (processColumnGo parse api ci bs cd path ck2 n fuel i rows stats
          evs2).2.2 ∧
      (∃ st, (processColumnGo parse api ci bs cd path ck1 n fuel i rows stats
          evs1).2.2 = .ok st) ∧
      (evs1.map eraseCkptEv = evs2.map eraseCkptEv →
        ((processColumnGo parse api ci bs cd path ck1 n fuel i rows stats
            evs1).2.1.map eraseCkptEv =
          (processColumnGo parse api ci bs cd path ck2 n fuel i rows stats
            evs2).2.1.map eraseCkptEv)) ∧
      ((processColumnGo parse api ci bs cd path ck1 n fuel i rows stats
          evs1).2.1.countP isCkptEvent =
        evs1.countP isCkptEvent + numBatchesGo n bs fuel i) ∧
      (∀ p hs rs, Event.checkpoint p hs rs ∈
          (processColumnGo parse api ci bs cd path ck1 n fuel i rows stats
            evs1).2.1 →
        Event.checkpoint p hs rs ∈ evs1 ∨
          (p = path ∧ rs.length = rows.length)) ∧
      (∀ p, Event.checkpointFailed p ∈
          (processColumnGo parse api ci bs cd path ck1 n fuel i rows stats
            evs1).2.1 →
        Event.checkpointFailed p ∈ evs1 ∨ p = path) := by
  have hpath' : (path != "") = true := by simp [hpath]
  intro fuel
  induction fuel with
  | zero =>
    intro i n hni rows stats ck1 ck2 evs1 evs2
    have hle : n ≤ i := by omega
    have hdone : ∀ (k : Nat → Bool) (e : List Event),
        processColumnGo parse api ci bs cd path k n 0 i rows stats e =
          (rows, e, .ok stats) := by
      intro k e
      simp only [processColumnGo, if_pos hle]
    rw [hdone ck1 evs1, hdone ck2 evs2]
    exact ⟨rfl, rfl, ⟨stats, rfl⟩, fun h => h, by simp [numBatchesGo],
      fun p hs rs h => .inl h, fun p h => .inl h⟩
  | succ f1 ih =>
    intro i n hni rows stats ck1 ck2 evs1 evs2
    by_cases hcase : n ≤ i
    · have hdone : ∀ (k : Nat → Bool) (e : List Event),
          processColumnGo parse api ci bs cd path k n (f1 + 1) i rows stats
            e = (rows, e, .ok stats) := by
        intro k e
        simp only [processColumnGo, if_pos hcase]
      rw [hdone ck1 evs1, hdone ck2 evs2]
      exact ⟨rfl, rfl, ⟨stats, rfl⟩, fun h => h,
        by simp [numBatchesGo, hcase],
        fun p hs rs h => .inl h, fun p h => .inl h⟩
    · obtain ⟨rows1, hlen1, hbatch⟩ := processBatch_allok parse api ci rows i
        (min (i + bs) n) r (by omega) hapi
      have hstep : ∀ (k : Nat → Bool) (e : List Event),
          processColumnGo parse api ci bs cd path k n (f1 + 1) i rows stats
              e =
            processColumnGo parse api ci bs cd path k n f1 (i + bs) rows1
              (accumStats stats ((List.range' i (min (i + bs) n - i)).map
                (fun j => mkSuccessInfo (callOpenRouterAPI (r j)) j)))
              ((e ++ (if (path != "") = true then
                  (if k i = true then
                    [Event.checkpoint path (rowKeys (rows1.getD 0 []))
                      rows1]
                   else [Event.checkpointFailed path])
                 else [])) ++
               (if min (i + bs) n < n ∧ 0 < cd then [Event.cooldown cd]
                else [])) := by
        intro k e
        simp only [processColumnGo]
        rw [if_neg hcase, hbatch]
      have herase : ∀ k : Nat → Bool,
          ((if (path != "") = true then
              (if k i = true then
                [Event.checkpoint path (rowKeys (rows1.getD 0 [])) rows1]
               else [Event.checkpointFailed path])
            else []).map eraseCkptEv) = [Event.checkpointFailed path] := by
        intro k
        rw [if_pos hpath']
        by_cases h : k i = true
        · rw [if_pos h]; rfl
        · rw [if_neg h]; rfl
      have hcnt : ∀ k : Nat → Bool,
          ((if (path != "") = true then
              (if k i = true then
                [Event.checkpoint path (rowKeys (rows1.getD 0 [])) rows1]
               else [Event.checkpointFailed path])
            else []).countP isCkptEvent) = 1 := by
        intro k
        rw [if_pos hpath']
        by_cases h : k i = true
        · rw [if_pos h]; rfl
        · rw [if_neg h]; rfl
      have hcdcnt :
          ((if min (i + bs) n < n ∧ 0 < cd then [Event.cooldown cd]
            else []) : List Event).countP isCkptEvent = 0 := by
        by_cases h : min (i + bs) n < n ∧ 0 < cd
        · rw [if_pos h]; rfl
        · rw [if_neg h]; rfl
      have hcderase :
          ((if min (i + bs) n < n ∧ 0 < cd then [Event.cooldown cd]
            else []) : List Event).map eraseCkptEv =
          (if min (i + bs) n < n ∧ 0 < cd then [Event.cooldown cd]
            else []) := by
        by_cases h : min (i + bs) n < n ∧ 0 < cd
        · rw [if_pos h]; rfl
        · rw [if_neg h]; rfl
      obtain ⟨ih1, ih2, ih3, ih4, ih5, ih6, ih7⟩ := ih (i + bs) n (by omega)
        rows1
        (accumStats stats ((List.range' i (min (i + bs) n - i)).map
          (fun j => mkSuccessInfo (callOpenRouterAPI (r j)) j)))
        ck1 ck2
        ((evs1 ++ (if (path != "") = true then
            (if ck1 i = true then
              [Event.checkpoint path (rowKeys (rows1.getD 0 [])) rows1]
             else [Event.checkpointFailed path])
           else [])) ++
         (if min (i + bs) n < n ∧ 0 < cd then [Event.cooldown cd] else []))
        ((evs2 ++ (if (path != "") = true then
            (if ck2 i = true then
              [Event.checkpoint path (rowKeys (rows1.getD 0 [])) rows1]
             else [Event.checkpointFailed path])
           else [])) ++
         (if min (i + bs) n < n ∧ 0 < cd then [Event.cooldown cd] else []))
      rw [hstep ck1 evs1, hstep ck2 evs2]
      refine ⟨ih1, ih2, ih3, ?_, ?_, ?_, ?_⟩
      · intro hev
        apply ih4
        simp only [List.map_append, herase, hcderase, hev]
      · rw [ih5]
        simp only [List.countP_append, hcnt, hcdcnt]
        simp only [numBatchesGo, if_neg hcase]
        omega
      · intro p hs rs hmem
        rcases ih6 p hs rs hmem with h1 | h2
        · rcases List.mem_append.mp h1 with h3 | h4
          · rcases List.mem_append.mp h3 with h5 | h6
            · exact .inl h5
            · rw [if_pos hpath'] at h6
              by_cases hk : ck1 i = true
              · rw [if_pos hk] at h6
                simp only [List.mem_singleton] at h6
                injection h6 with e1 e2 e3
                subst e1
                subst e3
                exact .inr ⟨rfl, hlen1⟩
              · rw [if_neg hk] at h6
                simp only [List.mem_singleton] at h6
                cases h6
          · by_cases hcd : min (i + bs) n < n ∧ 0 < cd
            · rw [if_pos hcd] at h4
              simp only [List.mem_singleton] at h4
              cases h4
            · rw [if_neg hcd] at h4
              cases h4
        · exact .inr ⟨h2.1, h2.2.trans hlen1⟩
      · intro p hmem
        rcases ih7 p hmem with h1 | h2
        · rcases List.mem_append.mp h1 with h3 | h4
          · rcases List.mem_append.mp h3 with h5 | h6
            · exact .inl h5
            · rw [if_pos hpath'] at h6
              by_cases hk : ck1 i = true
              · rw [if_pos hk] at h6
                simp only [List.mem_singleton] at h6
                cases h6
              · rw [if_neg hk] at h6
                simp only [List.mem_singleton] at h6
                injection h6 with e1
                exact .inr e1
          · by_cases hcd : min (i + bs) n < n ∧ 0 < cd
            · rw [if_pos hcd] at h4
              simp only [List.mem_singleton] at h4
              cases h4
            · rw [if_neg hcd] at h4
              cases h4
        · exact .inr h2

/-- **C6**: in a column run over an all-success oracle with a configured
checkpoint sink, the driver makes exactly one checkpoint-write attempt per
batch, each checkpoint targets the sink path and carries the entire row set
(full table, length preserved); and a failing sink is never fatal — for any
two sink behaviours the mutated rows, the outcome (which is `.ok`), and the
event stream up to checkpoint-write outcomes are identical, so processing
continues to the next batch unchanged. -/
theorem c6_checkpoint_each_batch (parse : String → Option Json) (api : Api)
    (cfg : ColumnConfig) (rows : Rows) (path : String)
    (ck1 ck2 : Nat → Bool) (r : Nat → RawResponse) (hpath : path ≠ "")
    (hbs : 0 < cfg.batchSize) (hapi : ∀ i, api 0 i = .ok (r i)) :
    (processColumn parse api cfg rows path ck1).1 =
      (processColumn parse api cfg rows path ck2).1 ∧
    (processColumn parse api cfg rows path ck1).2.2 =
      (processColumn parse api cfg rows path ck2).2.2 ∧
    (∃ st, (processColumn parse api cfg rows path ck1).2.2 = .ok st) ∧
    ((processColumn parse api cfg rows path ck1).2.1.map eraseCkptEv =
      (processColumn parse api cfg rows path ck2).2.1.map eraseCkptEv) ∧
    ((processColumn parse api cfg rows path ck1).2.1.countP isCkptEvent =
      numBatchesGo rows.length cfg.batchSize (rows.length + 1) 0) ∧
    (∀ p hs rs,
      Event.checkpoint p hs rs ∈
        (processColumn parse api cfg rows path ck1).2.1 →
      p = path ∧ rs.length = rows.length) ∧
    (∀ p, Event.checkpointFailed p ∈
        (processColumn parse api cfg rows path ck1).2.1 → p = path) := by
  obtain ⟨h1, h2, h3, h4, h5, h6, h7⟩ := processColumnGo_allok_props parse
    api cfg.info cfg.batchSize cfg.cooldown path r hbs hpath hapi
    (rows.length + 1) 0 rows.length (by omega) rows ⟨0, 0, 0, 0⟩ ck1 ck2 [] []
  refine ⟨h1, h2, h3, h4 rfl, ?_, ?_, ?_⟩
  · show (processColumnGo parse api cfg.info cfg.batchSize cfg.cooldown path
        ck1 rows.length (rows.length + 1) 0 rows ⟨0, 0, 0, 0⟩
        []).2.1.countP isCkptEvent =
      numBatchesGo rows.length cfg.batchSize (rows.length + 1) 0
    rw [h5]
    simp
  · intro p hs rs hmem
    rcases h6 p hs rs hmem with h | h
    · cases h
    · exact h
  · intro p hmem
    rcases h7 p hmem with h | h
    · cases h
    · exact h

/-- **C6 witness**: three rows in two batches — a sink that always fails
yields the same rows and the same `.ok` outcome as one that always
succeeds, with two checkpoint-write attempts (one per batch). -/
theorem c6_witness :
    (processColumn (fun _ => none) (fun _ _ => Except.ok rawC1)
        (.single ⟨"Out", "m", 2, 0, "p"⟩) rowsC1 "x.progress"
        (fun _ => true)).1 =
      (processColumn (fun _ => none) (fun _ _ => Except.ok rawC1)
        (.single ⟨"Out", "m", 2, 0, "p"⟩) rowsC1 "x.progress"
        (fun _ => false)).1 ∧
    (processColumn (fun _ => none) (fun _ _ => Except.ok rawC1)
        (.single ⟨"Out", "m", 2, 0, "p"⟩) rowsC1 "x.progress"
        (fun _ => true)).2.2 =
      (processColumn (fun _ => none) (fun _ _ => Except.ok rawC1)
        (.single ⟨"Out", "m", 2, 0, "p"⟩) rowsC1 "x.progress"
        (fun _ => false)).2.2 ∧
    (∃ st, (processColumn (fun _ => none) (fun _ _ => Except.ok rawC1)
        (.single ⟨"Out", "m", 2, 0, "p"⟩) rowsC1 "x.progress"
        (fun _ => true)).2.2 = .ok st) ∧
    ((processColumn (fun _ => none) (fun _ _ => Except.ok rawC1)
        (.single ⟨"Out", "m", 2, 0, "p"⟩) rowsC1 "x.progress"
        (fun _ => true)).2.1.countP isCkptEvent = 2) := by
  obtain ⟨h1, h2, h3, h4, h5, h6, h7⟩ := c6_checkpoint_each_batch
    (fun _ => none) (fun _ _ => Except.ok rawC1)
    (.single ⟨"Out", "m", 2, 0, "p"⟩) rowsC1 "x.progress" (fun _ => true)
    (fun _ => false) (fun _ => rawC1) (by decide) (by decide)
    (fun i => rfl)
  exact ⟨h1, h2, h3, h5.trans (by decide)⟩

/-! ## Sequential column execution and fatal aborts -/

/-- A fatal column failure makes the column loop's outcome independent of
the remaining configurations: they are never processed. -/
theorem runColumnsGo_error_append (parse : String → Option Json)
    (apis : Nat → Api) (path : String) (cks : Nat → Nat → Bool) :
    ∀ (cfgs post : List ColumnConfig) (idx : Nat) (rows : Rows)
      (stats : ColumnStats) (evs : List Event) (err : BatchError),
      (runColumnsGo parse apis path cks cfgs idx rows stats evs).2.2 =
        .error err →
      runColumnsGo parse apis path cks (cfgs ++ post) idx rows stats evs =
        runColumnsGo parse apis path cks cfgs idx rows stats evs := by
  intro cfgs
  induction cfgs with
  | nil =>
    intro post idx rows stats evs err herr
    exact absurd herr (by simp [runColumnsGo])
  | cons cfg rest ih =>
    intro post idx rows stats evs err herr
    rw [List.cons_append]
    cases hres : (processColumn parse (apis idx) cfg rows path
        (cks idx)).2.2 with
    | error e =>
      simp only [runColumnsGo, hres]
    | ok cstats =>
      simp only [runColumnsGo, hres] at herr ⊢
      exact ih post (idx + 1) _ _ _ err herr

/-- The column driver never emits a final-write event. -/
theorem processColumnGo_no_finalWrite (parse : String → Option Json)
    (api : Api) (ci : ColumnInfo) (bs cd : Nat) (path : String)
    (ck : Nat → Bool) (n : Nat) :
    ∀ (fuel i : Nat) (rows : Rows) (stats : ColumnStats) (evs : List Event),
      (∀ p hs rs, Event.finalWrite p hs rs ∉ evs) →
      ∀ p hs rs, Event.finalWrite p hs rs ∉
        (processColumnGo parse api ci bs cd path ck n fuel i rows stats
          evs).2.1 := by
  intro fuel
  induction fuel with
  | zero =>
    intro i rows stats evs hin p hs rs hmem
    unfold processColumnGo at hmem
    by_cases hni : n ≤ i
    · rw [if_pos hni] at hmem; exact hin _ _ _ hmem
    · rw [if_neg hni] at hmem; exact hin _ _ _ hmem
  | succ fuel ih =>
    intro i rows stats evs hin p hs rs hmem
    unfold processColumnGo at hmem
    by_cases hni : n ≤ i
    · rw [if_pos hni] at hmem; exact hin _ _ _ hmem
    · rw [if_neg hni] at hmem
      cases hres : (processBatch parse api rows i (min (i + bs) n) ci
          10).2.2 with
      | error e =>
        simp only [hres] at hmem
        exact hin _ _ _ hmem
      | ok results =>
        simp only [hres] at hmem
        refine ih (i + bs) _ _ _ ?_ p hs rs hmem
        intro p1 hs1 rs1 hmem1
        rcases List.mem_append.mp hmem1 with h1 | h2
        · rcases List.mem_append.mp h1 with h3 | h4
          · exact hin _ _ _ h3
          · by_cases hpf : (path != "") = true
            · simp only [hpf, if_true] at h4
              by_cases hck : ck i = true
              · simp only [hck, if_true, List.mem_singleton] at h4
                cases h4
              · simp only [Bool.not_eq_true] at hck
                simp only [hck, Bool.false_eq_true, if_false,
                  List.mem_singleton] at h4
                cases h4
            · simp only [Bool.not_eq_true] at hpf
              simp only [hpf, Bool.false_eq_true, if_false] at h4
              cases h4
        · by_cases hcd : min (i + bs) n < n ∧ 0 < cd
          · simp only [if_pos hcd, List.mem_singleton] at h2
            cases h2
          · simp only [if_neg hcd] at h2
            cases h2

/-- The column loop of `main` never emits a final-write event. -/
theorem runColumnsGo_no_finalWrite (parse : String → Option Json)
    (apis : Nat → Api) (path : String) (cks : Nat → Nat → Bool) :
    ∀ (cfgs : List ColumnConfig) (idx : Nat) (rows : Rows)
      (stats : ColumnStats) (evs : List Event),
      (∀ p hs rs, Event.finalWrite p hs rs ∉ evs) →
      ∀ p hs rs, Event.finalWrite p hs rs ∉
        (runColumnsGo parse apis path cks cfgs idx rows stats evs).2.1 := by
  intro cfgs
  induction cfgs with
  | nil => intro idx rows stats evs hin p hs rs hmem; exact hin _ _ _ hmem
  | cons cfg rest ih =>
    intro idx rows stats evs hin p hs rs hmem
    have hcol : ∀ p1 hs1 rs1,
        Event.finalWrite p1 hs1 rs1 ∉
          (processColumn parse (apis idx) cfg rows path (cks idx)).2.1 :=
      processColumnGo_no_finalWrite parse (apis idx) cfg.info cfg.batchSize
        cfg.cooldown path (cks idx) rows.length (rows.length + 1) 0 rows
        ⟨0, 0, 0, 0⟩ [] (fun _ _ _ h => absurd h (List.not_mem_nil _))
    unfold runColumnsGo at hmem
    cases hres : (processColumn parse (apis idx) cfg rows path
        (cks idx)).2.2 with
    | error e =>
      simp only [hres] at hmem
      rcases List.mem_append.mp hmem with h1 | h2
      · exact hin _ _ _ h1
      · exact hcol _ _ _ h2
    | ok cstats =>
      simp only [hres] at hmem
      refine ih _ _ _ _ ?_ p hs rs hmem
      intro p1 hs1 rs1 hmem1
      rcases List.mem_append.mp hmem1 with h1 | h2
      · exact hin _ _ _ h1
      · exact hcol _ _ _ h2

/-- **C7**: the orchestrator runs the column drivers strictly in list order
over the shared row set — a column that succeeds hands its mutated rows to
the next configuration — and a fatal column failure aborts the run: the
whole run is independent of every later configuration (none is processed),
it ends with that very error, the final persistence event never happens,
while the events of already-completed columns and batches are kept. -/
theorem c7_sequential_abort (parse : String → Option Json)
    (apis : Nat → Api) (cks : Nat → Nat → Bool) (out : String)
    (rows : Rows) (cfgs post : List ColumnConfig) (err : BatchError)
    (herr : (runColumnsGo parse apis (progressPathOf out) cks cfgs 0 rows
        ⟨0, 0, 0, 0⟩ []).2.2 = .error err) :
    (mainRun parse apis (cfgs ++ post) out cks rows =
      mainRun parse apis cfgs out cks rows) ∧
    ((mainRun parse apis cfgs out cks rows).2.2 = .error err) ∧
    ((mainRun parse apis cfgs out cks rows).2.1 =
      (runColumnsGo parse apis (progressPathOf out) cks cfgs 0 rows
        ⟨0, 0, 0, 0⟩ []).2.1) ∧
    (∀ p hs rs, Event.finalWrite p hs rs ∉
      (mainRun parse apis (cfgs ++ post) out cks rows).2.1) ∧
    (∀ (cfg : ColumnConfig) (rest : List ColumnConfig) (idx : Nat)
       (rows1 : Rows) (stats cstats : ColumnStats) (evs : List Event),
      (processColumn parse (apis idx) cfg rows1 (progressPathOf out)
          (cks idx)).2.2 = .ok cstats →
      runColumnsGo parse apis (progressPathOf out) cks (cfg :: rest) idx
          rows1 stats evs =
        runColumnsGo parse apis (progressPathOf out) cks rest (idx + 1)
          (processColumn parse (apis idx) cfg rows1 (progressPathOf out)
            (cks idx)).1
          (addStats stats ⟨cstats.cost,
            cstats.promptTokens + cstats.completionTokens,
            cstats.promptTokens, cstats.completionTokens⟩)
          (evs ++ (processColumn parse (apis idx) cfg rows1
            (progressPathOf out) (cks idx)).2.1)) := by
  have happ := runColumnsGo_error_append parse apis (progressPathOf out) cks
    cfgs post 0 rows ⟨0, 0, 0, 0⟩ [] err herr
  refine ⟨?_, ?_, ?_, ?_, ?_⟩
  · simp only [mainRun]
    rw [happ]
  · simp only [mainRun]
    rw [herr]
  · simp only [mainRun]
    rw [herr]
  · intro p hs rs hmem
    simp only [mainRun] at hmem
    rw [happ, herr] at hmem
    exact runColumnsGo_no_finalWrite parse apis (progressPathOf out) cks
      cfgs 0 rows ⟨0, 0, 0, 0⟩ []
      (fun _ _ _ h => absurd h (List.not_mem_nil _)) p hs rs hmem
  · intro cfg rest idx rows1 stats cstats evs hok
    simp only [runColumnsGo, hok]

/-- **C7 witness**: a run whose first column exhausts its retries is
unchanged by appending a second column — the later column is never
processed — and it ends with the first column's aggregate error. -/
theorem c7_witness :
    mainRun (fun _ => none) (fun _ => apiAllFail)
        ([ColumnConfig.single ⟨"Out", "m", 3, 0, "p"⟩] ++
          [ColumnConfig.single ⟨"B", "m", 3, 0, "q"⟩])
        "out.csv" (fun _ _ => true) rowsC1 =
      mainRun (fun _ => none) (fun _ => apiAllFail)
        [ColumnConfig.single ⟨"Out", "m", 3, 0, "p"⟩] "out.csv"
        (fun _ _ => true) rowsC1 ∧
    (mainRun (fun _ => none) (fun _ => apiAllFail)
        [ColumnConfig.single ⟨"Out", "m", 3, 0, "p"⟩] "out.csv"
        (fun _ _ => true) rowsC1).2.2 =
      .error ⟨[2, 3], [("500: overloaded", [2, 3])],
        "2 row(s) failed after 10 retries"⟩ := by
  obtain ⟨h1, h2, h3, h4, h5⟩ := c7_sequential_abort (fun _ => none)
    (fun _ => apiAllFail) (fun _ _ => true) "out.csv" rowsC1
    [ColumnConfig.single ⟨"Out", "m", 3, 0, "p"⟩]
    [ColumnConfig.single ⟨"B", "m", 3, 0, "q"⟩]
    ⟨[2, 3], [("500: overloaded", [2, 3])],
     "2 row(s) failed after 10 retries"⟩ (by rfl)
  exact ⟨h1, h2⟩

end CsvGen
